import Mathlib

/-!
Keyword search over a broadcast topic: peer protocol and benchmark harness.

Shallow embedding of `src/peer.js` (class `Peer`) and `src/run.js`
(`p2pSearch`, `compareTestResults`).

Modelling conventions.

* A JavaScript object is an association list from property names to values
  (`Dict`), holding its own properties.  The order in which the engine
  enumerates keys is not modelled and no statement depends on it.
* `Object.prototype` is modelled where the code can reach it with a key that
  is data: the assignments `latencies[keyword] = ...` and
  `row[r.label] = ...` (`Dict.assign`: the key `__proto__` is the setter of
  the prototype and stores nothing) and the read `r.latencies[keyword]`
  (`cell`: an inherited member is found when there is no own property).
  Messages are read only under the fixed names `type`, `target_id`, `files`,
  `timestamp`, `keyword`, `testCase`, `request_id` and `origin_id`, none of
  which is inherited.
* The values that travel in messages are `undefined`, `null`, booleans,
  integers, strings and arrays of strings (`JSVal`).  Nested arrays, nested
  objects and fractional numbers are outside the development; every statement
  about messages is a statement about messages of these values.
* `Date.now()` and `crypto.randomUUID()` are inputs: every call site takes the
  value it reads as an argument (`Stamp`, `Inbound.now`, `QueryEnv.now`, ...).
* `fs.existsSync` / `fs.readdirSync` read a `Storage`: a function from a folder
  path to the listing of that folder, `none` when the folder does not exist.
* `pubsub.publish(TOPIC, bytes)` appends the published message to an outbox
  (a list); the transport itself is outside the development.
* Console output is not modelled (the `verbose` flag only guards logging).
-/

namespace P2P

/-! ## JavaScript values and objects -/

/-- Values that occur in protocol messages.  A number is an integer that a
double holds exactly (at most 2^53 in magnitude). -/
inductive JSVal where
  | undefined
  | null
  | bool (b : Bool)
  | num (n : Int)
  | str (s : String)
  | arr (xs : List String)
  deriving DecidableEq, Repr, Inhabited

/-- String conversion used by template literals and by property keys
(`String(v)`): an array is joined with commas, an integer prints in decimal
(the exponent form of magnitudes from 1e21 on is not modelled). -/
def JSVal.toStr : JSVal → String
  | .undefined => "undefined"
  | .null => "null"
  | .bool b => if b then "true" else "false"
  | .num n => toString n
  | .str s => s
  | .arr xs => ",".intercalate xs

/-- The operator `a ?? b`: `b` when `a` is `null` or `undefined`. -/
def JSVal.nullish (a b : JSVal) : JSVal :=
  match a with
  | .undefined => b
  | .null => b
  | v => v

/-- Insertion-ordered string-keyed map: a plain JavaScript object. -/
abbrev Dict (α : Type) := List (String × α)

/-- Own property lookup, `none` when the key is absent. -/
def Dict.get? {α : Type} : Dict α → String → Option α
  | [], _ => none
  | (k, v) :: rest, key => if k = key then some v else Dict.get? rest key

/-- Definition of the own property `key` with value `v`, as done by an object
literal and by object spread: overwrite when the key exists, add it
otherwise. -/
def Dict.set {α : Type} : Dict α → String → α → Dict α
  | [], key, v => [(key, v)]
  | (k, w) :: rest, key, v =>
    if k = key then (k, v) :: rest else (k, w) :: Dict.set rest key v

/-- The assignment `o[key] = v` of a primitive value on a plain object.  The
key `__proto__` resolves to the setter that `Object.prototype` provides, which
ignores a value that is neither an object nor `null`: nothing is stored.  Any
other key becomes an own property. -/
def Dict.assign {α : Type} (o : Dict α) (key : String) (v : α) : Dict α :=
  if key = "__proto__" then o else Dict.set o key v

/-- The string form of the member of `Object.prototype` named `key`, as a
template literal prints it, `none` when the prototype has no such member:
the built-in functions print as native code and `__proto__` reads as the
prototype itself. -/
def protoMember (key : String) : Option String :=
  if key = "constructor" then some "function Object() \x7b [native code] \x7d"
  else if key = "__proto__" then some "[object Object]"
  else if key ∈ ["toString", "toLocaleString", "valueOf", "hasOwnProperty",
      "isPrototypeOf", "propertyIsEnumerable", "__defineGetter__", "__defineSetter__",
      "__lookupGetter__", "__lookupSetter__"] then
    some ("function " ++ key ++ "() \x7b [native code] \x7d")
  else none

/-- Own keys, the members of `Object.keys(o)`.  The list is in insertion
order; the order of `Object.keys` (array indices first) is not modelled and
nothing proved below depends on it. -/
def Dict.keys {α : Type} (o : Dict α) : List String := o.map Prod.fst

/-- Own values, `Object.values(o)`. -/
def Dict.values {α : Type} (o : Dict α) : List α := o.map Prod.snd

/-- A message or payload object. -/
abbrev Obj := Dict JSVal

/-- Property read `o.key`: `undefined` when absent. -/
def Obj.get (o : Obj) (key : String) : JSVal := (Dict.get? o key).getD .undefined

/-- Object spread `{ ...base, ...payload }`: every property of `payload`, in
order, is assigned onto `base`. -/
def Obj.spread (base payload : Obj) : Obj :=
  payload.foldl (fun acc kv => Dict.set acc kv.1 kv.2) base

/-- What a receiver gets back from `JSON.parse(JSON.stringify(o))`: properties
whose value is `undefined` are omitted by `JSON.stringify`. -/
def jsonWire (o : Obj) : Obj := o.filter (fun kv => kv.2 ≠ JSVal.undefined)

/-- A JavaScript `Set`: insertion-ordered, no repetition. -/
abbrev JSSet (α : Type) := List α

/-- Method `set.add(v)`. -/
def JSSet.add {α : Type} [DecidableEq α] (s : JSSet α) (v : α) : JSSet α :=
  if v ∈ s then s else s ++ [v]

/-- Constructor `new Set(array)` on an array of strings. -/
def JSSet.ofArray (xs : List String) : JSSet JSVal :=
  xs.foldl (fun acc x => JSSet.add acc (JSVal.str x)) []

/-! ## `src/peer.js` -/

/-- A started peer: display name and `node.peerId.toString()`. -/
structure Peer where
  name : String
  peerId : String
  verbose : Bool := false
  deriving Repr

/-- Folder path to folder listing; `none` when `fs.existsSync` is false. -/
abbrev Storage := String → Option (List String)

/-- The two values `sendQuery` draws from the environment on entry:
`crypto.randomUUID()` and `Date.now()`. -/
structure Stamp where
  uuid : String
  now : Int
  deriving Repr

/-- Return value of `sendQuery`: `{ uuid, timestamp, local }`; `localHit` is
false when the `local` property is absent. -/
structure QueryResult where
  uuid : String
  timestamp : Int
  localHit : Bool
  deriving DecidableEq, Repr

/-- The object literal `message` built at the top of `sendQuery`
(peer.js lines 109-118). -/
def buildMessage (p : Peer) (type : String) (payload : Obj) (s : Stamp) : Obj :=
  Obj.spread
    [("type", .str type),
     ("request_id", JSVal.nullish (Obj.get payload "request_id") (.str s.uuid)),
     ("timestamp", .num s.now),
     ("origin_id", .str p.peerId),
     ("origin_name", .str p.name),
     ("sender_id", .str p.peerId),
     ("sender_name", .str p.name)]
    payload

/-- The call `pubsub.publish(TOPIC, encode(JSON.stringify(message)))`. -/
def publish (net : List Obj) (message : Obj) : List Obj := net ++ [jsonWire message]

/-- The body of `sendQuery` for a `type` other than "search"
(peer.js lines 106-118 and 129-138): build the message, publish it, return.
`handleSearch` reaches `sendQuery` only with type "search_result", so the
mutual recursion of the source is unfolded once. -/
def sendQueryPublish (p : Peer) (net : List Obj) (type : String) (payload : Obj)
    (s : Stamp) : QueryResult × List Obj :=
  (⟨s.uuid, s.now, false⟩, publish net (buildMessage p type payload s))

/-- The template literal of peer.js line 69, the folder read by
`handleSearch`: "./storage/" followed by `request.testCase`, "/" and the name
of the peer. -/
def storageFolder (p : Peer) (request : Obj) : String :=
  "./storage/" ++ (Obj.get request "testCase").toStr ++ "/" ++ p.name

/-- Method `Peer.handleSearch(request)` (peer.js lines 67-91).  Returns the
boolean result and the outbox after the call; `s` is what the nested
`sendQuery` reads from the environment when a result is published. -/
def handleSearch (p : Peer) (storage : Storage) (net : List Obj) (request : Obj)
    (s : Stamp) : Bool × List Obj :=
  let keyword := Obj.get request "keyword"
  let folder := storageFolder p request
  let matched : List String :=
    match storage folder with
    | some files => files.filter (fun file => JSVal.str file = keyword)
    | none => []
  if matched.length > 0 then
    let resultMsg : Obj :=
      [("type", .str "search_result"),
       ("request_id", Obj.get request "request_id"),
       ("responder_name", .str p.name),
       ("responder_id", .str p.peerId),
       ("files", .arr matched),
       ("target_id", Obj.get request "origin_id")]
    (true, (sendQueryPublish p net "search_result" resultMsg s).2)
  else
    (false, net)

/-- Method `Peer.sendQuery(type, payload)` (peer.js lines 105-139).  `s` is
read by this call, `inner` by the `sendQuery` nested in `handleSearch`. -/
def sendQuery (p : Peer) (storage : Storage) (net : List Obj) (type : String)
    (payload : Obj) (s inner : Stamp) : QueryResult × List Obj :=
  let message := buildMessage p type payload s
  if type = "search" then
    let r := handleSearch p storage net message inner
    if r.1 then
      (⟨s.uuid, s.now, true⟩, r.2)
    else
      (⟨s.uuid, s.now, false⟩, publish r.2 message)
  else
    (⟨s.uuid, s.now, false⟩, publish net message)

/-- Errors a listener can raise. -/
inductive JSError where
  | syntaxError
  | typeError
  deriving DecidableEq, Repr

/-- An inbound pubsub frame as `JSON.parse` sees it: text that is not JSON,
the JSON value `null`, or a JSON object.  Any other JSON value (number,
string, array) has none of the protocol properties and behaves as the empty
object. -/
inductive Frame where
  | invalid
  | null
  | object (o : Obj)
  deriving DecidableEq, Repr

/-- Method `Peer.handleSearchResult(request)` (peer.js lines 93-99): it only
logs, so the outbox is returned as it was. -/
def handleSearchResult (p : Peer) (net : List Obj) (request : Obj) : List Obj :=
  if Obj.get request "target_id" ≠ JSVal.str p.peerId then net else net

/-- Method `Peer.handleMessage(request)` (peer.js lines 43-64) on a parsed
object: dispatch on `request.type`. -/
def handleMessage (p : Peer) (storage : Storage) (net : List Obj) (request : Obj)
    (s : Stamp) : List Obj :=
  if Obj.get request "type" = JSVal.str "broadcast" then net
  else if Obj.get request "type" = JSVal.str "search" then
    (handleSearch p storage net request s).2
  else if Obj.get request "type" = JSVal.str "search_result" then
    handleSearchResult p net request
  else net

/-- The listener installed by `Peer.start` (peer.js lines 34-37):
`JSON.parse` followed by `handleMessage`.  `JSON.parse` throws a
`SyntaxError` on text that is not JSON; reading `request.type` of `null`
throws a `TypeError`.  Returns the outbox and the error raised, if any. -/
def peerListener (p : Peer) (storage : Storage) (net : List Obj) (f : Frame)
    (s : Stamp) : List Obj × Option JSError :=
  match f with
  | .invalid => (net, some .syntaxError)
  | .null => (net, some .typeError)
  | .object request => (handleMessage p storage net request s, none)

/-! ## `src/run.js` -/

/-- A recorded latency: the number `now - timestamp`, an integer number of
milliseconds that a double holds exactly, or `NaN`. -/
inductive Latency where
  | ms (n : Int)
  | nan
  deriving DecidableEq, Repr

/-- The range of `Date.now()`: a non-negative integer that a double holds
exactly. -/
def clockReading (n : Int) : Prop := 0 ≤ n ∧ n ≤ 2 ^ 53

/-- The subtraction `now - request.timestamp`.  It is exact when the timestamp
is a number (both operands being clock readings), `null` (which counts as 0),
a boolean (1 or 0) or `undefined` (`NaN`).  For a string or an array the
engine converts the text to a number; that conversion is not modelled, the
value given here is a placeholder, and every statement below that mentions a
recorded latency assumes a numeric timestamp. -/
def jsSub (now : Int) (ts : JSVal) : Latency :=
  match ts with
  | .num n => .ms (now - n)
  | .null => .ms now
  | .bool b => .ms (now - (if b then 1 else 0))
  | _ => .nan

/-- The indexing `v[0]`: `none` stands for the `TypeError` raised on
`undefined` and `null`; an empty array or string and a number give
`undefined`; a string gives its first character. -/
def index0 (v : JSVal) : Option JSVal :=
  match v with
  | .undefined => none
  | .null => none
  | .bool _ => some .undefined
  | .num _ => some .undefined
  | .str s =>
    match s.data with
    | [] => some .undefined
    | c :: _ => some (.str (String.singleton c))
  | .arr [] => some .undefined
  | .arr (x :: _) => some (.str x)

/-- The mutable variables closed over by `resultHandler` in `p2pSearch`. -/
structure RunState where
  latencies : Dict Latency
  receivedKeywords : JSSet JSVal
  trafficCounter : Nat
  deriving DecidableEq, Repr

/-- Function `resultHandler(request)` of `p2pSearch` (run.js lines 50-63) on a
parsed object; `now` is the `Date.now()` of line 56.  Returns the state after
the call and the error raised, if any (the state is the one reached when the
error was raised). -/
def resultHandler (requesterId : String) (st : RunState) (request : Obj) (now : Int) :
    RunState × Option JSError :=
  let st1 : RunState := { st with trafficCounter := st.trafficCounter + 1 }
  if Obj.get request "type" = JSVal.str "search_result" ∧
      Obj.get request "target_id" = JSVal.str requesterId then
    match index0 (Obj.get request "files") with
    | none => (st1, some .typeError)
    | some keyword =>
      if keyword ∈ st1.receivedKeywords then (st1, none)
      else
        ({ st1 with
            latencies := Dict.assign st1.latencies keyword.toStr
              (jsSub now (Obj.get request "timestamp"))
            receivedKeywords := JSSet.add st1.receivedKeywords keyword }, none)
  else (st1, none)

/-- The listener installed by `p2pSearch` (run.js lines 65-68): `JSON.parse`
followed by `resultHandler`.  On `null` the counter is incremented before
`request.type` raises. -/
def harnessListener (requesterId : String) (st : RunState) (f : Frame) (now : Int) :
    RunState × Option JSError :=
  match f with
  | .invalid => (st, some .syntaxError)
  | .null => ({ st with trafficCounter := st.trafficCounter + 1 }, some .typeError)
  | .object request => resultHandler requesterId st request now

/-- A parsed message delivered to the harness listener together with the
clock value its handler reads. -/
structure Inbound where
  request : Obj
  now : Int
  deriving Repr

/-- What the environment contributes while one `sendQuery` of the query loop
is awaited: the values read by `sendQuery` and by the nested one, the messages
delivered to the listener before the call resumes, and the `Date.now()` of
line 80. -/
structure QueryEnv where
  stamp : Stamp
  inner : Stamp
  inbound : List Inbound
  now : Int

/-- The environment of one run of `p2pSearch`: the clock at line 70, the
environment of the i-th query, the messages delivered during the j-th sleep
of the wait loop, and the clock at line 102. -/
structure Env where
  startAll : Int
  queries : Nat → QueryEnv
  polls : Nat → List Inbound
  endNow : Int

/-- How a run ends: the model ran out of fuel, a listener raised an uncaught
error (which ends the process), or the function returned. -/
inductive Outcome (α : Type) where
  | outOfFuel
  | crashed (e : JSError)
  | returned (a : α)
  deriving Repr

/-- Deliver a batch of messages to the listener in order, stopping at the
first error. -/
def deliver (requesterId : String) : RunState → List Inbound → Except JSError RunState
  | st, [] => .ok st
  | st, m :: rest =>
    match resultHandler requesterId st m.request m.now with
    | (_, some e) => .error e
    | (st1, none) => deliver requesterId st1 rest

/-- The payload `{ keyword, testCase }` that `p2pSearch` passes to
`sendQuery`. -/
def searchPayload (keyword testCase : String) : Obj :=
  [("keyword", .str keyword), ("testCase", .str testCase)]

/-- The query loop of `p2pSearch` (run.js lines 73-85), from the i-th query
on. -/
def queryLoop (requester : Peer) (storage : Storage) (testCase : String) (env : Env) :
    Nat → List String → RunState → List Obj → Except JSError (RunState × List Obj)
  | _, [], st, net => .ok (st, net)
  | i, keyword :: rest, st, net =>
    let q := env.queries i
    let r := sendQuery requester storage net "search" (searchPayload keyword testCase)
      q.stamp q.inner
    match deliver requester.peerId st q.inbound with
    | .error e => .error e
    | .ok st1 =>
      let st2 : RunState :=
        if r.1.localHit then
          { st1 with
              latencies := Dict.assign st1.latencies keyword (.ms (q.now - r.1.timestamp))
              receivedKeywords := JSSet.add st1.receivedKeywords (.str keyword) }
        else st1
      queryLoop requester storage testCase env (i + 1) rest st2 r.2

/-- Constant `timeout` of the wait loop (run.js line 88). -/
def timeout : Nat := 5000

/-- Constant `pollInterval` of the wait loop (run.js line 89). -/
def pollInterval : Nat := 10

/-- The wait loop of `p2pSearch` (run.js lines 91-100), from its j-th
iteration on; one unit of fuel is spent per evaluation of the loop condition.
Returns the state and the value of `waited` on exit. -/
def waitLoop (requesterId : String) (env : Env) (expectedSize : Nat) :
    Nat → Nat → RunState → Nat → Outcome (RunState × Nat)
  | 0, _, _, _ => .outOfFuel
  | fuel + 1, j, st, waited =>
    if st.receivedKeywords.length < expectedSize ∧ waited < timeout then
      match deliver requesterId st (env.polls j) with
      | .error e => .crashed e
      | .ok st1 => waitLoop requesterId env expectedSize fuel (j + 1) st1 (waited + pollInterval)
    else .returned (st, waited)

/-- JavaScript numbers produced by the divisions of the statistics: a finite
value (exact rational arithmetic stands for double arithmetic, and the sign
of zero is not tracked), the infinities, or `NaN`. -/
inductive JSNum where
  | fin (q : ℚ)
  | posInf
  | negInf
  | nan
  deriving DecidableEq, Repr

/-- The division `a / b` of JavaScript numbers. -/
def jsDiv (a b : JSNum) : JSNum :=
  match a, b with
  | .nan, _ => .nan
  | _, .nan => .nan
  | .fin x, .fin y =>
    if y = 0 then (if x = 0 then .nan else if 0 < x then .posInf else .negInf)
    else .fin (x / y)
  | .fin _, _ => .fin 0
  | .posInf, .fin y => if 0 ≤ y then .posInf else .negInf
  | .negInf, .fin y => if 0 ≤ y then .negInf else .posInf
  | _, _ => .nan

/-- The reducer `(a, b) => a + b` over recorded latencies. -/
def jsAdd (a : JSNum) (b : Latency) : JSNum :=
  match a, b with
  | .fin x, .ms n => .fin (x + n)
  | .fin _, .nan => .nan
  | other, _ => other

/-- The object returned by `p2pSearch` (run.js lines 130-138). -/
structure Run where
  label : String
  latencies : Dict Latency
  receivedKeywords : JSSet JSVal
  trafficCounter : Nat
  totalTime : Int
  avgLatency : JSNum
  throughput : JSNum
  deriving Repr

/-- The expression for `avgLatency` (run.js lines 119-123). -/
def avgLatencyOf (latencies : Dict Latency) : JSNum :=
  if (Dict.values latencies).length > 0 then
    jsDiv ((Dict.values latencies).foldl jsAdd (.fin 0))
      (.fin (Dict.values latencies).length)
  else .fin 0

/-- The expression for `throughput` (run.js line 125). -/
def throughputOf (latencies : Dict Latency) (totalTime : Int) : JSNum :=
  jsDiv (.fin (Dict.values latencies).length) (jsDiv (.fin totalTime) (.fin 1000))

/-- A finished run together with the value of `waited` when the wait loop
stopped and the messages published by the queries of the run. -/
structure Trace where
  run : Run
  waited : Nat
  net : List Obj

/-- Function `p2pSearch(peers, keywords, testCase, label)` (run.js lines
39-139) with `requester = peers[0]`, started on an empty outbox. -/
def p2pSearchTrace (fuel : Nat) (requester : Peer) (storage : Storage)
    (keywords : List String) (testCase label : String) (env : Env) : Outcome Trace :=
  let st0 : RunState := { latencies := [], receivedKeywords := [], trafficCounter := 0 }
  let expectedReceivedKeywords := JSSet.ofArray keywords
  match queryLoop requester storage testCase env 0 keywords st0 [] with
  | .error e => .crashed e
  | .ok (st1, net) =>
    match waitLoop requester.peerId env expectedReceivedKeywords.length fuel 0 st1 0 with
    | .outOfFuel => .outOfFuel
    | .crashed e => .crashed e
    | .returned (st, waited) =>
      let totalTime := env.endNow - env.startAll
      .returned
        { run :=
            { label := label
              latencies := st.latencies
              receivedKeywords := st.receivedKeywords
              trafficCounter := st.trafficCounter
              totalTime := totalTime
              avgLatency := avgLatencyOf st.latencies
              throughput := throughputOf st.latencies totalTime }
          waited := waited
          net := net }

/-- Fuel that always suffices for the wait loop: `timeout / pollInterval`
iterations and the final evaluation of the condition. -/
def enoughFuel : Nat := timeout / pollInterval + 1

/-- The value returned by `p2pSearch`. -/
def p2pSearch (requester : Peer) (storage : Storage) (keywords : List String)
    (testCase label : String) (env : Env) : Outcome Run :=
  match p2pSearchTrace enoughFuel requester storage keywords testCase label env with
  | .outOfFuel => .outOfFuel
  | .crashed e => .crashed e
  | .returned t => .returned t.run

/-- String form of a latency inside a template literal (decimal digits for
an integer below 1e21 in magnitude). -/
def Latency.toStr : Latency → String
  | .ms n => toString n
  | .nan => "NaN"

/-- The latency is `NaN` or an integer that a double holds exactly, as is
every difference of two clock readings. -/
def Latency.exact : Latency → Prop
  | .ms n => -(2 ^ 53) ≤ n ∧ n ≤ 2 ^ 53
  | .nan => True

/-- Two decimal digits of a number below one hundred. -/
def twoDigits (n : Nat) : String :=
  if n < 10 then "0" ++ toString n else toString n

/-- The call `x.toFixed(2)` on the number whose exact value is held: the
magnitude is rounded to the nearest hundredth, the larger one on a tie, and a
negative `x` keeps its sign.  Magnitudes of 1e21 and more, which print in
exponent form, are not modelled.  A quotient produced by `jsDiv` is the
unrounded rational, so its digits can differ from those of the double in the
last place; no statement below depends on these digits. -/
def toFixed2 : JSNum → String
  | .nan => "NaN"
  | .posInf => "Infinity"
  | .negInf => "-Infinity"
  | .fin q =>
    let n : Nat := (Int.floor (|q| * 100 + 1 / 2)).toNat
    let digits := toString (n / 100) ++ "." ++ twoDigits (n % 100)
    if q < 0 then "-" ++ digits else digits

/-- One row of the summary table (run.js lines 152-159); the fields stand for
the columns "Test", "Total Time (ms)", "Avg Latency (ms)", "Throughput (q/s)",
"Traffic (msgs)" and "Files Received". -/
structure SummaryRow where
  test : String
  totalTime : Int
  avgLatency : String
  throughput : String
  traffic : Nat
  filesReceived : Nat
  deriving DecidableEq, Repr

/-- The mapping `results.map((r) => ...)` of run.js lines 152-159. -/
def summaryRow (r : Run) : SummaryRow :=
  { test := r.label
    totalTime := r.totalTime
    avgLatency := toFixed2 r.avgLatency
    throughput := toFixed2 r.throughput
    traffic := r.trafficCounter
    filesReceived := r.receivedKeywords.length }

/-- The set `allKeywords` (run.js lines 167-170): the keys of the latency maps
of all runs, in order of first insertion. -/
def allKeywords (results : List Run) : JSSet String :=
  results.foldl (fun acc r => (Dict.keys r.latencies).foldl JSSet.add acc) []

/-- The cell written for run `r` in the row of `keyword` (run.js lines
178-181).  The read `r.latencies[keyword]` finds the own property, and
failing that the member of `Object.prototype` of that name, which is not
`undefined` and is printed in place of a latency. -/
def cell (r : Run) (keyword : String) : String :=
  match Dict.get? r.latencies keyword with
  | some l => l.toStr ++ " ms"
  | none =>
    match protoMember keyword with
    | some inherited => inherited ++ " ms"
    | none => "NaN"

/-- The row object built for one keyword (run.js lines 175-182): it starts as
`{ Keyword: keyword }` and every run assigns the property named by its
label. -/
def keywordRow (results : List Run) (keyword : String) : Dict String :=
  results.foldl (fun row r => Dict.assign row r.label (cell r keyword)) [("Keyword", keyword)]

/-- The two tables printed by `compareTestResults`. -/
structure Report where
  summary : List SummaryRow
  keywordTable : List (Dict String)
  deriving DecidableEq, Repr

/-- Function `compareTestResults(results, groupLabel)` (run.js lines 141-190):
`none` when it returns early on an empty list, otherwise the summary table
and the per-keyword table handed to `console.table`. -/
def compareTestResults (results : List Run) : Option Report :=
  if results.length = 0 then none
  else
    some
      { summary := results.map summaryRow
        keywordTable := (allKeywords results).map (keywordRow results) }

/-! ## Concrete peers and catalogs used by the examples -/

/-- Peer `Andrew`, the first entry of `peerConfigs` and the requester of every
run. -/
def andrew : Peer := { name := "Andrew", peerId := "12D3KooWAndrew" }

/-- Peer `Robin`, the third entry of `peerConfigs`. -/
def robin : Peer := { name := "Robin", peerId := "12D3KooWRobin" }

/-- A catalog in which Andrew owns `andrew.txt` and Robin owns `robin.jpeg`
under the namespace `benchmark`; no other folder exists. -/
def benchStorage : Storage := fun path =>
  if path = "./storage/benchmark/Andrew" then some ["andrew.txt"]
  else if path = "./storage/benchmark/Robin" then some ["robin.jpeg"]
  else none

/-- The search for `robin.jpeg` as Andrew publishes it at clock 100 and as
every other peer parses it. -/
def robinSearch : Obj :=
  jsonWire (buildMessage andrew "search" (searchPayload "robin.jpeg" "benchmark") ⟨"u1", 100⟩)

/-- The message that `handleSearch` hands to `pubsub.publish` when `matched`
is the list of matching names, before the JSON round trip. -/
def replyMessage (p : Peer) (request : Obj) (matched : List String) (s : Stamp) : Obj :=
  [("type", .str "search_result"),
   ("request_id", Obj.get request "request_id"),
   ("timestamp", .num s.now),
   ("origin_id", .str p.peerId),
   ("origin_name", .str p.name),
   ("sender_id", .str p.peerId),
   ("sender_name", .str p.name),
   ("responder_name", .str p.name),
   ("responder_id", .str p.peerId),
   ("files", .arr matched),
   ("target_id", Obj.get request "origin_id")]

/-- The reply of Robin to the search of Andrew, as Andrew receives it. -/
def robinReply : Obj := jsonWire (replyMessage robin robinSearch ["robin.jpeg"] ⟨"u2", 105⟩)

/-- An environment for a run whose first query is issued and answered within
millisecond 0 and whose later queries are issued at 10 and answered at 11; no
message is delivered. -/
def quietEnv : Env :=
  { startAll := 0
    queries := fun i =>
      if i = 0 then ⟨⟨"u1", 0⟩, ⟨"v1", 0⟩, [], 0⟩ else ⟨⟨"u2", 10⟩, ⟨"v2", 10⟩, [], 11⟩
    polls := fun _ => []
    endNow := 11 }

/-- An environment in which every clock reads 7 and no message is
delivered. -/
def sameMsEnv : Env :=
  { startAll := 7
    queries := fun _ => ⟨⟨"u1", 7⟩, ⟨"v1", 7⟩, [], 7⟩
    polls := fun _ => []
    endNow := 7 }

/-- A search_result for keyword `z`, addressed to Andrew, left over from an
earlier run. -/
def strayResult : Obj :=
  [("type", .str "search_result"), ("request_id", .str "old"), ("timestamp", .num 1),
   ("origin_id", .str robin.peerId), ("files", .arr ["z"]),
   ("target_id", .str andrew.peerId)]

/-- A search_result addressed to Andrew whose only file name is
`__proto__`. -/
def protoResult : Obj :=
  [("type", .str "search_result"), ("request_id", .str "r7"), ("timestamp", .num 100),
   ("origin_id", .str robin.peerId), ("files", .arr ["__proto__"]),
   ("target_id", .str andrew.peerId)]

/-- A search_result addressed to Andrew that carries no files. -/
def brokenResult : Obj :=
  [("type", .str "search_result"), ("request_id", .str "r8"), ("timestamp", .num 1),
   ("origin_id", .str robin.peerId), ("target_id", .str andrew.peerId)]

/-- An environment in which the result without files is delivered while the
first query is awaited and nothing else arrives. -/
def brokenEnv : Env :=
  { startAll := 0
    queries := fun _ => ⟨⟨"u1", 0⟩, ⟨"v1", 0⟩, [⟨brokenResult, 3⟩], 3⟩
    polls := fun _ => []
    endNow := 4 }

/-- An environment in which the stray result is delivered while the first
query is awaited. -/
def strayEnv : Env :=
  { startAll := 0
    queries := fun _ => ⟨⟨"u1", 0⟩, ⟨"v1", 0⟩, [⟨strayResult, 3⟩], 3⟩
    polls := fun _ => []
    endNow := 4 }

/-- The message is delivered at some point of the run. -/
def arrives (env : Env) (m : Inbound) : Prop :=
  (∃ i, m ∈ (env.queries i).inbound) ∨ (∃ j, m ∈ env.polls j)

/-- The message is a search_result addressed to the requester from which
`resultHandler` derives the keyword `K` (the string form of `files[0]`). -/
def isResultFor (requesterId K : String) (m : Obj) : Prop :=
  Obj.get m "type" = JSVal.str "search_result" ∧
  Obj.get m "target_id" = JSVal.str requesterId ∧
  ∃ kw, index0 (Obj.get m "files") = some kw ∧ kw.toStr = K

/-- The message is one `resultHandler` handles without raising: it is not a
search_result addressed to the requester whose `files[0]` cannot be read. -/
def handled (requesterId : String) (m : Obj) : Prop :=
  ¬ (Obj.get m "type" = JSVal.str "search_result" ∧
      Obj.get m "target_id" = JSVal.str requesterId ∧
      index0 (Obj.get m "files") = none)

/-- Keyword `K` is in neither receivedKeywords nor latencies. -/
def keywordAbsent (K : String) (st : RunState) : Prop :=
  JSVal.str K ∉ st.receivedKeywords ∧ Dict.get? st.latencies K = none

/-- A run of the default label that recorded 5 ms for `common_file.txt`. -/
def runA : Run :=
  { label := "unnamed search"
    latencies := [("common_file.txt", .ms 5)]
    receivedKeywords := [.str "common_file.txt"]
    trafficCounter := 3
    totalTime := 10
    avgLatency := .fin 5
    throughput := .fin 100 }

/-- A run of the default label that timed out and recorded nothing. -/
def runB : Run :=
  { label := "unnamed search"
    latencies := []
    receivedKeywords := []
    trafficCounter := 0
    totalTime := 5000
    avgLatency := .fin 0
    throughput := .fin 0 }

/-- The run `runA` labelled `first`. -/
def runFirst : Run := { runA with label := "first" }

/-- A run labelled `first` that recorded 5 ms for the keyword
`constructor`. -/
def runCtor : Run :=
  { label := "first"
    latencies := [("constructor", .ms 5)]
    receivedKeywords := [.str "constructor"]
    trafficCounter := 3
    totalTime := 10
    avgLatency := .fin 5
    throughput := .fin 100 }

/-- The run `runB` labelled `second`. -/
def runSecond : Run := { runB with label := "second" }

/-! ## Lemmas on objects -/

theorem Dict.get?_set_same {α : Type} (o : Dict α) (k : String) (v : α) :
    Dict.get? (Dict.set o k v) k = some v := by
  induction o with
  | nil => simp [Dict.set, Dict.get?]
  | cons hd tl ih =>
    obtain ⟨k0, w⟩ := hd
    by_cases h : k0 = k
    · simp [Dict.set, Dict.get?, h]
    · simp [Dict.set, Dict.get?, h, ih]

theorem Dict.get?_set_other {α : Type} (o : Dict α) (k key : String) (v : α)
    (hne : k ≠ key) : Dict.get? (Dict.set o k v) key = Dict.get? o key := by
  induction o with
  | nil => simp [Dict.set, Dict.get?, hne]
  | cons hd tl ih =>
    obtain ⟨k0, w⟩ := hd
    by_cases h : k0 = k
    · subst h
      simp [Dict.set, Dict.get?, hne]
    · by_cases h2 : k0 = key
      · subst h2
        simp [Dict.set, Dict.get?, h]
      · simp [Dict.set, Dict.get?, h, h2, ih]

theorem Dict.assign_of_ne {α : Type} (o : Dict α) (k : String) (v : α)
    (h : k ≠ "__proto__") : Dict.assign o k v = Dict.set o k v := by
  simp [Dict.assign, h]

theorem Dict.get?_assign_other {α : Type} (o : Dict α) (k key : String) (v : α)
    (hne : k ≠ key) : Dict.get? (Dict.assign o k v) key = Dict.get? o key := by
  unfold Dict.assign
  split
  · rfl
  · exact Dict.get?_set_other o k key v hne

theorem Dict.get?_eq_none_of_not_mem_keys {α : Type} (o : Dict α) (key : String)
    (h : key ∉ Dict.keys o) : Dict.get? o key = none := by
  induction o with
  | nil => rfl
  | cons hd tl ih =>
    obtain ⟨k0, w⟩ := hd
    simp only [Dict.keys, List.map_cons, List.mem_cons, not_or] at h
    have h1 : ¬ k0 = key := fun e => h.1 e.symm
    simp only [Dict.get?, h1, if_false]
    exact ih h.2

theorem Dict.keys_set_of_not_mem {α : Type} (o : Dict α) (k : String) (v : α)
    (h : k ∉ Dict.keys o) : Dict.keys (Dict.set o k v) = Dict.keys o ++ [k] := by
  induction o with
  | nil => rfl
  | cons hd tl ih =>
    obtain ⟨k0, w⟩ := hd
    simp only [Dict.keys, List.map_cons, List.mem_cons, not_or] at h
    have h1 : ¬ k0 = k := fun e => h.1 e.symm
    simp only [Dict.set, h1, if_false, Dict.keys, List.map_cons, List.cons_append,
      List.cons.injEq, true_and]
    exact ih h.2

/-- Reading a property after the JSON round trip gives what the object held,
for an object whose keys are distinct. -/
theorem Obj.get_jsonWire (o : Obj) (key : String) (hnd : (Dict.keys o).Nodup) :
    Obj.get (jsonWire o) key = Obj.get o key := by
  induction o with
  | nil => rfl
  | cons hd tl ih =>
    obtain ⟨k0, w⟩ := hd
    simp only [Dict.keys, List.map_cons, List.nodup_cons] at hnd
    have ih1 := ih hnd.2
    by_cases hw : w = JSVal.undefined
    · subst hw
      have e : jsonWire ((k0, JSVal.undefined) :: tl) = jsonWire tl := by
        simp [jsonWire]
      rw [e, ih1]
      by_cases hk : k0 = key
      · subst hk
        have hn := Dict.get?_eq_none_of_not_mem_keys tl k0 hnd.1
        simp [Obj.get, Dict.get?, hn]
      · simp [Obj.get, Dict.get?, hk]
    · have e : jsonWire ((k0, w) :: tl) = (k0, w) :: jsonWire tl := by
        simp [jsonWire, hw]
      rw [e]
      by_cases hk : k0 = key
      · simp [Obj.get, Dict.get?, hk]
      · have := ih1
        simp only [Obj.get] at this
        simp [Obj.get, Dict.get?, hk, this]

/-- In a listing without repetition, the filter of `handleSearch` keeps
exactly the one name that equals the keyword. -/
theorem filter_eq_singleton (files : List String) (k : String) (hnd : files.Nodup)
    (hmem : k ∈ files) :
    files.filter (fun file => decide (JSVal.str file = JSVal.str k)) = [k] := by
  induction files with
  | nil => simp at hmem
  | cons f tl ih =>
    rw [List.nodup_cons] at hnd
    by_cases hf : f = k
    · subst hf
      have hnone : tl.filter (fun file => decide (JSVal.str file = JSVal.str f)) = [] := by
        rw [List.filter_eq_nil_iff]
        intro a ha hdec
        have : a = f := by simpa using hdec
        exact hnd.1 (this ▸ ha)
      rw [List.filter_cons_of_pos (by simp), hnone]
    · have hk : k ∈ tl := by
        rcases List.mem_cons.mp hmem with h | h
        · exact absurd h.symm hf
        · exact h
      rw [List.filter_cons_of_neg (by simpa using hf)]
      exact ih hnd.2 hk

theorem buildMessage_reply (p : Peer) (request : Obj) (matched : List String) (s : Stamp) :
    buildMessage p "search_result"
      [("type", .str "search_result"),
       ("request_id", Obj.get request "request_id"),
       ("responder_name", .str p.name),
       ("responder_id", .str p.peerId),
       ("files", .arr matched),
       ("target_id", Obj.get request "origin_id")] s
      = replyMessage p request matched s := by
  simp [buildMessage, Obj.spread, Dict.set, replyMessage]

theorem replyMessage_keys_nodup (p : Peer) (request : Obj) (matched : List String)
    (s : Stamp) : (Dict.keys (replyMessage p request matched s)).Nodup := by
  simp [replyMessage, Dict.keys]

/-- The two outcomes of `handleSearch`, by whether the filter found a name. -/
theorem handleSearch_eq (p : Peer) (storage : Storage) (net : List Obj) (request : Obj)
    (s : Stamp) :
    handleSearch p storage net request s =
      (match storage (storageFolder p request) with
       | some files =>
         if (files.filter (fun file => decide (JSVal.str file = Obj.get request "keyword"))).length > 0
         then (true, net ++ [jsonWire (replyMessage p request
            (files.filter (fun file => decide (JSVal.str file = Obj.get request "keyword"))) s)])
         else (false, net)
       | none => (false, net)) := by
  unfold handleSearch
  simp only [sendQueryPublish, publish, buildMessage_reply]
  cases storage (storageFolder p request) <;> simp

/-- Properties of the reply that travel on the wire, read back after the JSON
round trip. -/
theorem reply_fields (p : Peer) (request : Obj) (matched : List String) (s : Stamp) :
    let pub := jsonWire (replyMessage p request matched s)
    Obj.get pub "type" = .str "search_result" ∧
    Obj.get pub "request_id" = Obj.get request "request_id" ∧
    Obj.get pub "timestamp" = .num s.now ∧
    Obj.get pub "origin_id" = .str p.peerId ∧
    Obj.get pub "origin_name" = .str p.name ∧
    Obj.get pub "sender_id" = .str p.peerId ∧
    Obj.get pub "sender_name" = .str p.name ∧
    Obj.get pub "responder_name" = .str p.name ∧
    Obj.get pub "responder_id" = .str p.peerId ∧
    Obj.get pub "files" = .arr matched ∧
    Obj.get pub "target_id" = Obj.get request "origin_id" := by
  intro pub
  have hnd := replyMessage_keys_nodup p request matched s
  simp only [pub, Obj.get_jsonWire _ _ hnd]
  simp [replyMessage, Obj.get, Dict.get?]

/-- On a hit in a listing without repetition, `handleSearch` returns true
and appends exactly one reply, whose `files` is the keyword alone. -/
theorem handleSearch_hit (p : Peer) (storage : Storage) (net : List Obj) (request : Obj)
    (s : Stamp) (files : List String) (k : String)
    (hfolder : storage (storageFolder p request) = some files) (hnd : files.Nodup)
    (hmem : k ∈ files) (hkey : Obj.get request "keyword" = .str k) :
    handleSearch p storage net request s =
      (true, net ++ [jsonWire (replyMessage p request [k] s)]) := by
  rw [handleSearch_eq, hfolder, hkey]
  simp only [filter_eq_singleton files k hnd hmem]
  simp

/-- Without a matching name, `handleSearch` returns false and leaves the
outbox as it was. -/
theorem handleSearch_miss (p : Peer) (storage : Storage) (net : List Obj) (request : Obj)
    (s : Stamp)
    (hmiss : ¬ ∃ files, storage (storageFolder p request) = some files ∧
      ∃ f ∈ files, JSVal.str f = Obj.get request "keyword") :
    handleSearch p storage net request s = (false, net) := by
  rw [handleSearch_eq]
  cases hfolder : storage (storageFolder p request) with
  | none => rfl
  | some files =>
    have hnil : files.filter (fun file => decide (JSVal.str file = Obj.get request "keyword"))
        = [] := by
      rw [List.filter_eq_nil_iff]
      intro a ha hdec
      exact hmiss ⟨files, hfolder, a, ha, by simpa using hdec⟩
    simp [hnil]

/-! ## Claims on `src/peer.js` -/

/-- C3. `handleSearch(msg)` returns true and publishes exactly one
search_result with files = [msg.keyword], target_id = msg.origin_id,
request_id = msg.request_id and the responder fields of the peer itself, if
and only if the folder of msg.testCase exists for the peer and lists a name
equal to msg.keyword; otherwise, also when the folder is missing, it returns
false and publishes nothing.  Listings are without repetition. -/
theorem handleSearch_contract (p : Peer) (storage : Storage) (net : List Obj) (msg : Obj)
    (s : Stamp)
    (hdistinct : ∀ files, storage (storageFolder p msg) = some files → files.Nodup) :
    (((handleSearch p storage net msg s).1 = true ∧
        ∃ pub k, (handleSearch p storage net msg s).2 = net ++ [pub] ∧
          Obj.get msg "keyword" = .str k ∧
          Obj.get pub "type" = .str "search_result" ∧
          Obj.get pub "files" = .arr [k] ∧
          Obj.get pub "target_id" = Obj.get msg "origin_id" ∧
          Obj.get pub "request_id" = Obj.get msg "request_id" ∧
          Obj.get pub "responder_id" = .str p.peerId ∧
          Obj.get pub "responder_name" = .str p.name)
      ↔ (∃ files, storage (storageFolder p msg) = some files ∧
          ∃ f ∈ files, JSVal.str f = Obj.get msg "keyword")) ∧
    ((¬ ∃ files, storage (storageFolder p msg) = some files ∧
          ∃ f ∈ files, JSVal.str f = Obj.get msg "keyword") →
      handleSearch p storage net msg s = (false, net)) := by
  refine ⟨⟨?_, ?_⟩, handleSearch_miss p storage net msg s⟩
  · intro h
    by_contra hmiss
    have := handleSearch_miss p storage net msg s hmiss
    rw [this] at h
    exact absurd h.1 (by simp)
  · rintro ⟨files, hfolder, f, hf, hkey⟩
    have hhit := handleSearch_hit p storage net msg s files f hfolder
      (hdistinct files hfolder) hf hkey.symm
    have hfields := reply_fields p msg [f] s
    rw [hhit]
    refine ⟨rfl, _, f, rfl, hkey.symm, ?_⟩
    obtain ⟨h1, h2, -, -, -, -, -, h8, h9, h10, h11⟩ := hfields
    exact ⟨h1, h10, h11, h2, h9, h8⟩

/-- Witness for C3: Robin answers the search for `robin.jpeg` that Andrew
published. -/
theorem handleSearch_contract_witness :
    (∀ files, benchStorage (storageFolder robin robinSearch) = some files → files.Nodup) ∧
    (handleSearch robin benchStorage [] robinSearch ⟨"u2", 105⟩).1 = true ∧
    ∃ files, benchStorage (storageFolder robin robinSearch) = some files ∧
      ∃ f ∈ files, JSVal.str f = Obj.get robinSearch "keyword" := by
  have hfolder : benchStorage (storageFolder robin robinSearch) = some ["robin.jpeg"] := by
    decide
  have hdistinct : ∀ files,
      benchStorage (storageFolder robin robinSearch) = some files → files.Nodup := by
    intro files h
    rw [hfolder] at h
    cases h
    decide
  have hhit : ∃ files, benchStorage (storageFolder robin robinSearch) = some files ∧
      ∃ f ∈ files, JSVal.str f = Obj.get robinSearch "keyword" :=
    ⟨["robin.jpeg"], hfolder, "robin.jpeg", by decide, by decide⟩
  exact ⟨hdistinct,
    ((handleSearch_contract robin benchStorage [] robinSearch ⟨"u2", 105⟩ hdistinct).1.2
      hhit).1, hhit⟩

/-- For a type other than "search", `sendQuery` is the publishing body that
`handleSearch` calls. -/
theorem sendQuery_of_ne_search (p : Peer) (storage : Storage) (net : List Obj)
    (type : String) (payload : Obj) (s inner : Stamp) (hne : type ≠ "search") :
    sendQuery p storage net type payload s inner = sendQueryPublish p net type payload s := by
  simp [sendQuery, sendQueryPublish, hne]

/-- On any hit, `handleSearch` returns true and appends one reply. -/
theorem handleSearch_hit_any (p : Peer) (storage : Storage) (net : List Obj)
    (request : Obj) (s : Stamp)
    (hhit : ∃ files, storage (storageFolder p request) = some files ∧
      ∃ f ∈ files, JSVal.str f = Obj.get request "keyword") :
    ∃ matched, handleSearch p storage net request s =
      (true, net ++ [jsonWire (replyMessage p request matched s)]) := by
  obtain ⟨files, hfolder, f, hf, hkey⟩ := hhit
  refine ⟨files.filter (fun file => decide (JSVal.str file = Obj.get request "keyword")), ?_⟩
  rw [handleSearch_eq, hfolder]
  have hpos : (files.filter
      (fun file => decide (JSVal.str file = Obj.get request "keyword"))).length > 0 := by
    apply List.length_pos_of_mem (a := f)
    exact List.mem_filter.mpr ⟨hf, by simpa using hkey⟩
  simp only [hpos, if_true]

/-- C4 fails as stated: Andrew publishes a search for `robin.jpeg` stamped
100; the reply that Robin publishes at 105 is stamped 105 and names Robin,
not Andrew, as its origin. -/
theorem reply_envelope_counterexample :
    (sendQuery andrew benchStorage [] "search" (searchPayload "robin.jpeg" "benchmark")
        ⟨"u1", 100⟩ ⟨"u1", 100⟩).2 = [robinSearch] ∧
    ∃ reply, handleSearch robin benchStorage [] robinSearch ⟨"u2", 105⟩ = (true, [reply]) ∧
      Obj.get robinSearch "timestamp" = .num 100 ∧
      Obj.get reply "timestamp" = .num 105 ∧
      Obj.get robinSearch "origin_id" = .str andrew.peerId ∧
      Obj.get reply "origin_id" = .str robin.peerId ∧
      Obj.get robinSearch "origin_name" = .str "Andrew" ∧
      Obj.get reply "origin_name" = .str "Robin" ∧
      Obj.get reply "timestamp" ≠ Obj.get robinSearch "timestamp" ∧
      Obj.get reply "origin_id" ≠ Obj.get robinSearch "origin_id" ∧
      Obj.get reply "origin_name" ≠ Obj.get robinSearch "origin_name" := by
  refine ⟨by decide, _, rfl, ?_⟩
  decide

/-- C4, amended.  The search_result that a peer P holding the keyword publishes
in reply to a search message names P in origin_id and origin_name as well as
in sender_id and sender_name.  The originator appears only in target_id,
copied from the origin_id of the search, and request_id is copied from the
search. -/
theorem reply_envelope (p : Peer) (storage : Storage) (net : List Obj) (msg : Obj)
    (s : Stamp)
    (hhit : ∃ files, storage (storageFolder p msg) = some files ∧
      ∃ f ∈ files, JSVal.str f = Obj.get msg "keyword") :
    ∃ reply, handleSearch p storage net msg s = (true, net ++ [reply]) ∧
      Obj.get reply "type" = .str "search_result" ∧
      Obj.get reply "origin_id" = .str p.peerId ∧
      Obj.get reply "origin_name" = .str p.name ∧
      Obj.get reply "sender_id" = .str p.peerId ∧
      Obj.get reply "sender_name" = .str p.name ∧
      Obj.get reply "target_id" = Obj.get msg "origin_id" ∧
      Obj.get reply "request_id" = Obj.get msg "request_id" := by
  obtain ⟨matched, hres⟩ := handleSearch_hit_any p storage net msg s hhit
  obtain ⟨h1, h2, -, h4, h5, h6, h7, -, -, -, h11⟩ := reply_fields p msg matched s
  exact ⟨_, hres, h1, h4, h5, h6, h7, h11, h2⟩

/-- Witness for C4, amended: the reply of Robin to the search of Andrew. -/
theorem reply_envelope_witness :
    (∃ files, benchStorage (storageFolder robin robinSearch) = some files ∧
      ∃ f ∈ files, JSVal.str f = Obj.get robinSearch "keyword") ∧
    ∃ reply, handleSearch robin benchStorage [] robinSearch ⟨"u2", 105⟩
        = (true, [] ++ [reply]) ∧
      Obj.get reply "type" = .str "search_result" ∧
      Obj.get reply "origin_id" = .str robin.peerId ∧
      Obj.get reply "origin_name" = .str robin.name ∧
      Obj.get reply "sender_id" = .str robin.peerId ∧
      Obj.get reply "sender_name" = .str robin.name ∧
      Obj.get reply "target_id" = Obj.get robinSearch "origin_id" ∧
      Obj.get reply "request_id" = Obj.get robinSearch "request_id" :=
  have hhit : ∃ files, benchStorage (storageFolder robin robinSearch) = some files ∧
      ∃ f ∈ files, JSVal.str f = Obj.get robinSearch "keyword" :=
    ⟨["robin.jpeg"], by decide, "robin.jpeg", by decide, by decide⟩
  ⟨hhit, reply_envelope robin benchStorage [] robinSearch ⟨"u2", 105⟩ hhit⟩

/-- The search message built by the query loop carries the keyword and
names the folder of the namespace. -/
theorem searchMessage_fields (p : Peer) (keyword testCase : String) (s : Stamp) :
    Obj.get (buildMessage p "search" (searchPayload keyword testCase) s) "keyword"
      = .str keyword ∧
    storageFolder p (buildMessage p "search" (searchPayload keyword testCase) s)
      = "./storage/" ++ testCase ++ "/" ++ p.name := by
  simp [buildMessage, searchPayload, Obj.spread, Dict.set, Obj.get, Dict.get?,
    storageFolder, JSVal.toStr]

/-- Every local hit publishes: when the folder of the peer for the namespace
lists the keyword, `sendQuery("search", { keyword, testCase })` returns
`local: true` and the outbox has grown by the reply of `handleSearch`. -/
theorem sendQuery_local_hit_outbox (p : Peer) (storage : Storage) (net : List Obj)
    (keyword testCase : String) (s inner : Stamp) (files : List String)
    (hfolder : storage ("./storage/" ++ testCase ++ "/" ++ p.name) = some files)
    (hmem : keyword ∈ files) :
    ∃ reply, sendQuery p storage net "search" (searchPayload keyword testCase) s inner
        = (⟨s.uuid, s.now, true⟩, net ++ [reply]) ∧
      Obj.get reply "type" = .str "search_result" ∧
      Obj.get reply "target_id" = .str p.peerId := by
  obtain ⟨hk, hf⟩ := searchMessage_fields p keyword testCase s
  have hhit : ∃ fs,
      storage (storageFolder p (buildMessage p "search" (searchPayload keyword testCase) s))
        = some fs ∧
      ∃ f ∈ fs, JSVal.str f
        = Obj.get (buildMessage p "search" (searchPayload keyword testCase) s) "keyword" :=
    ⟨files, by rw [hf]; exact hfolder, keyword, hmem, hk.symm⟩
  obtain ⟨matched, hres⟩ := handleSearch_hit_any p storage net _ inner hhit
  obtain ⟨h1, -, -, -, -, -, -, -, -, -, h11⟩ :=
    reply_fields p (buildMessage p "search" (searchPayload keyword testCase) s) matched inner
  refine ⟨_, by simp [sendQuery, hres], h1, ?_⟩
  rw [h11]
  simp [buildMessage, searchPayload, Obj.spread, Dict.set, Obj.get, Dict.get?]

/-- C1 fails on the code: Andrew owns `andrew.txt` under `benchmark`; his
`sendQuery("search", ...)` for it returns `local: true`, yet the call has
published one message, the search_result that `handleSearch` addressed to
Andrew himself. -/
theorem local_hit_publishes :
    ∃ reply,
      sendQuery andrew benchStorage [] "search" (searchPayload "andrew.txt" "benchmark")
        ⟨"u1", 100⟩ ⟨"u2", 101⟩ = (⟨"u1", 100, true⟩, [reply]) ∧
      Obj.get reply "type" = .str "search_result" ∧
      Obj.get reply "files" = .arr ["andrew.txt"] ∧
      Obj.get reply "target_id" = .str andrew.peerId ∧
      ([reply] : List Obj).length ≠ ([] : List Obj).length := by
  refine ⟨_, rfl, ?_⟩
  decide

/-! ## Claims on the listeners -/

/-- The case analysis of `resultHandler` when `files[0]` can be read. -/
theorem resultHandler_eq (requesterId : String) (st : RunState) (m : Obj) (now : Int)
    (kw : JSVal) (hkw : index0 (Obj.get m "files") = some kw) :
    resultHandler requesterId st m now =
      if Obj.get m "type" = JSVal.str "search_result" ∧
          Obj.get m "target_id" = JSVal.str requesterId ∧ kw ∉ st.receivedKeywords then
        ({ latencies := Dict.assign st.latencies kw.toStr (jsSub now (Obj.get m "timestamp"))
           receivedKeywords := st.receivedKeywords ++ [kw]
           trafficCounter := st.trafficCounter + 1 }, none)
      else ({ st with trafficCounter := st.trafficCounter + 1 }, none) := by
  unfold resultHandler
  by_cases h1 : Obj.get m "type" = JSVal.str "search_result" ∧
      Obj.get m "target_id" = JSVal.str requesterId
  · by_cases h2 : kw ∈ st.receivedKeywords
    · simp [h1, hkw, h2]
    · simp [h1, hkw, h2, JSSet.add]
  · have h3 : ¬ (Obj.get m "type" = JSVal.str "search_result" ∧
        Obj.get m "target_id" = JSVal.str requesterId ∧ kw ∉ st.receivedKeywords) :=
      fun h => h1 ⟨h.1, h.2.1⟩
    rw [if_neg h1, if_neg h3]

/-- An array always has a readable `[0]`. -/
theorem index0_arr (xs : List String) : ∃ kw, index0 (.arr xs) = some kw := by
  cases xs with
  | nil => exact ⟨_, rfl⟩
  | cons x tl => exact ⟨_, rfl⟩

/-- C2 fails as stated: a search_result addressed to Andrew whose files is
`["__proto__"]` reaches his fresh run state.  The keyword is added to
receivedKeywords, but the assignment `latencies[keyword] = ...` meets the
setter of `Object.prototype` and records no latency under the keyword. -/
theorem proto_keyword_counterexample :
    Obj.get protoResult "files" = .arr ["__proto__"] ∧
    Obj.get protoResult "type" = .str "search_result" ∧
    Obj.get protoResult "target_id" = .str andrew.peerId ∧
    JSVal.str "__proto__" ∉ ([] : JSSet JSVal) ∧
    (resultHandler andrew.peerId ⟨[], [], 0⟩ protoResult 107).1.receivedKeywords
      = [.str "__proto__"] ∧
    (resultHandler andrew.peerId ⟨[], [], 0⟩ protoResult 107).1.latencies = [] ∧
    Dict.get? (resultHandler andrew.peerId ⟨[], [], 0⟩ protoResult 107).1.latencies
      "__proto__" ≠ some (jsSub 107 (Obj.get protoResult "timestamp")) := by
  decide

/-- C2, amended.  For a message m whose files is an array of strings with
files[0] other than "__proto__" and whose timestamp is an integer in the range
of `Date.now()`, handled at a clock reading `now` in a state whose
trafficCounter is below 2^53 - 1 (so that the counter is still exact):
`resultHandler` raises nothing and increases trafficCounter by exactly 1; it changes latencies and
receivedKeywords only when m.type is "search_result", m.target_id is the id
of the requester and m.files[0] is not yet in receivedKeywords, and then it
adds exactly that keyword with latency now - m.timestamp.  Hence a
search_result addressed to another peer, and a second delivery of the same
message, leave latencies and receivedKeywords unchanged and still count as
traffic. -/
theorem resultHandler_step (requesterId : String) (st : RunState) (m : Obj) (now : Int)
    (xs : List String) (hfiles : Obj.get m "files" = .arr xs)
    (hproto : xs.head? ≠ some "__proto__")
    (htime : ∃ n, Obj.get m "timestamp" = .num n ∧ clockReading n)
    (hnow : clockReading now) (htraffic : st.trafficCounter + 2 ≤ 2 ^ 53) :
    ∃ kw n, index0 (Obj.get m "files") = some kw ∧
      Obj.get m "timestamp" = .num n ∧
      (resultHandler requesterId st m now).2 = none ∧
      (resultHandler requesterId st m now).1.trafficCounter = st.trafficCounter + 1 ∧
      ((Obj.get m "type" = JSVal.str "search_result" ∧
          Obj.get m "target_id" = JSVal.str requesterId ∧ kw ∉ st.receivedKeywords) →
        (resultHandler requesterId st m now).1.receivedKeywords
            = st.receivedKeywords ++ [kw] ∧
        (resultHandler requesterId st m now).1.latencies
            = Dict.set st.latencies kw.toStr (.ms (now - n))) ∧
      (¬ (Obj.get m "type" = JSVal.str "search_result" ∧
          Obj.get m "target_id" = JSVal.str requesterId ∧ kw ∉ st.receivedKeywords) →
        (resultHandler requesterId st m now).1.receivedKeywords = st.receivedKeywords ∧
        (resultHandler requesterId st m now).1.latencies = st.latencies) ∧
      (Obj.get m "target_id" ≠ JSVal.str requesterId →
        (resultHandler requesterId st m now).1.receivedKeywords = st.receivedKeywords ∧
        (resultHandler requesterId st m now).1.latencies = st.latencies) ∧
      (∀ now2 : Int, clockReading now2 →
        (resultHandler requesterId (resultHandler requesterId st m now).1 m now2).2 = none ∧
        (resultHandler requesterId (resultHandler requesterId st m now).1 m now2).1.latencies
          = (resultHandler requesterId st m now).1.latencies ∧
        (resultHandler requesterId (resultHandler requesterId st m now).1 m
            now2).1.receivedKeywords
          = (resultHandler requesterId st m now).1.receivedKeywords ∧
        (resultHandler requesterId (resultHandler requesterId st m now).1 m
            now2).1.trafficCounter
          = st.trafficCounter + 2) := by
  have _ := hnow
  have _ := htraffic
  obtain ⟨n, hn, -⟩ := htime
  obtain ⟨kw, hkw⟩ := index0_arr xs
  have hkey : kw.toStr ≠ "__proto__" := by
    cases xs with
    | nil =>
      simp only [index0, Option.some.injEq] at hkw
      subst hkw
      decide
    | cons x tl =>
      simp only [index0, Option.some.injEq] at hkw
      subst hkw
      intro h
      apply hproto
      simp only [JSVal.toStr] at h
      simp [h]
  rw [← hfiles] at hkw
  refine ⟨kw, n, hkw, hn, ?_⟩
  by_cases hc : Obj.get m "type" = JSVal.str "search_result" ∧
      Obj.get m "target_id" = JSVal.str requesterId ∧ kw ∉ st.receivedKeywords
  · have h1 := resultHandler_eq requesterId st m now kw hkw
    rw [if_pos hc, Dict.assign_of_ne _ _ _ hkey, hn] at h1
    have hin : ¬ (Obj.get m "type" = JSVal.str "search_result" ∧
        Obj.get m "target_id" = JSVal.str requesterId ∧
        kw ∉ st.receivedKeywords ++ [kw]) := by
      intro h
      exact h.2.2 (by simp)
    refine ⟨by rw [h1], by rw [h1], fun _ => by rw [h1]; exact ⟨rfl, rfl⟩,
      fun h => absurd hc h, fun h => absurd hc.2.1 h, fun now2 _ => ?_⟩
    rw [h1, resultHandler_eq requesterId _ m now2 kw hkw, if_neg hin]
    exact ⟨rfl, rfl, rfl, rfl⟩
  · have h1 := resultHandler_eq requesterId st m now kw hkw
    rw [if_neg hc] at h1
    refine ⟨by rw [h1], by rw [h1], fun h => absurd h hc, fun _ => by rw [h1]; exact ⟨rfl, rfl⟩,
      fun _ => by rw [h1]; exact ⟨rfl, rfl⟩, fun now2 _ => ?_⟩
    rw [h1, resultHandler_eq requesterId _ m now2 kw hkw, if_neg hc]
    exact ⟨rfl, rfl, rfl, rfl⟩

/-- Witness for C2, amended: the reply of Robin, stamped 105, reaches the
fresh run state of Andrew at clock 107 and is recorded with latency 2. -/
theorem resultHandler_step_witness :
    Obj.get robinReply "files" = .arr ["robin.jpeg"] ∧
    (["robin.jpeg"] : List String).head? ≠ some "__proto__" ∧
    (∃ n, Obj.get robinReply "timestamp" = .num n ∧ clockReading n) ∧
    clockReading 107 ∧
    (0 + 2 ≤ 2 ^ 53) ∧
    (resultHandler andrew.peerId ⟨[], [], 0⟩ robinReply 107).1
      = ⟨[("robin.jpeg", .ms 2)], [.str "robin.jpeg"], 1⟩ ∧
    ∃ kw n, index0 (Obj.get robinReply "files") = some kw ∧
      Obj.get robinReply "timestamp" = .num n ∧
      (resultHandler andrew.peerId ⟨[], [], 0⟩ robinReply 107).2 = none :=
  have hfiles : Obj.get robinReply "files" = .arr ["robin.jpeg"] := by decide
  have hproto : (["robin.jpeg"] : List String).head? ≠ some "__proto__" := by decide
  have htime : ∃ n, Obj.get robinReply "timestamp" = .num n ∧ clockReading n :=
    ⟨105, by decide, by norm_num [clockReading]⟩
  have hnow : clockReading 107 := by norm_num [clockReading]
  have htraffic : (0 + 2 ≤ 2 ^ 53) := by norm_num
  have h := resultHandler_step andrew.peerId ⟨[], [], 0⟩ robinReply 107 ["robin.jpeg"]
    hfiles hproto htime hnow htraffic
  ⟨hfiles, hproto, htime, hnow, htraffic, by decide,
    h.imp (fun _ hk => hk.imp (fun _ hn => ⟨hn.1, hn.2.1, hn.2.2.1⟩))⟩

/-- C8 fails as stated: a frame that is not JSON raises a SyntaxError out of
the listener of the peer and out of the listener of the harness, and a parsed
search_result addressed to the requester that has no files raises a
TypeError out of the listener of the harness. -/
theorem listeners_raise_counterexample :
    (peerListener andrew benchStorage [] Frame.invalid ⟨"u", 1⟩).2 = some .syntaxError ∧
    (harnessListener andrew.peerId ⟨[], [], 0⟩ Frame.invalid 1).2 = some .syntaxError ∧
    (harnessListener andrew.peerId ⟨[], [], 0⟩
      (Frame.object [("type", .str "search_result"), ("target_id", .str andrew.peerId)])
      1).2 = some .typeError := by
  decide

/-- C8, amended.  Among the frames that are not JSON, that are JSON `null`, or
that parse to a JSON object whose property values are `null`, booleans,
integers, strings or arrays of strings: the listener of the peer completes
without an error exactly on the objects; the listener of the harness completes
without an error exactly on the objects that are not a search_result
addressed to the requester whose files is missing or `null`.  Every other frame raises out of the listener (nothing is caught
or dropped).  A frame on which the listener of the peer raises leaves its
outbox unchanged, and a frame on which the listener of the harness raises
leaves latencies and receivedKeywords unchanged. -/
theorem listeners_on_frames (p : Peer) (storage : Storage) (net : List Obj) (s : Stamp)
    (requesterId : String) (st : RunState) (now : Int) (f : Frame) :
    ((peerListener p storage net f s).2 = none ↔ ∃ o, f = .object o) ∧
    ((harnessListener requesterId st f now).2 = none ↔
      ∃ o, f = .object o ∧
        ¬ (Obj.get o "type" = JSVal.str "search_result" ∧
            Obj.get o "target_id" = JSVal.str requesterId ∧
            index0 (Obj.get o "files") = none)) ∧
    ((peerListener p storage net f s).2 ≠ none → (peerListener p storage net f s).1 = net) ∧
    ((harnessListener requesterId st f now).2 ≠ none →
      (harnessListener requesterId st f now).1.latencies = st.latencies ∧
      (harnessListener requesterId st f now).1.receivedKeywords = st.receivedKeywords) := by
  cases f with
  | invalid => simp [peerListener, harnessListener]
  | null => simp [peerListener, harnessListener]
  | object o =>
    have hp : (peerListener p storage net (.object o) s).2 = none := rfl
    refine ⟨⟨fun _ => ⟨o, rfl⟩, fun _ => hp⟩, ?_, fun h => absurd hp h, ?_⟩
    · simp only [harnessListener, Frame.object.injEq, exists_eq_left']
      cases hidx : index0 (Obj.get o "files") with
      | none =>
        by_cases hc : Obj.get o "type" = JSVal.str "search_result" ∧
            Obj.get o "target_id" = JSVal.str requesterId
        · simp [resultHandler, hc, hidx]
        · have hc2 : ¬ (Obj.get o "type" = JSVal.str "search_result" ∧
              Obj.get o "target_id" = JSVal.str requesterId ∧ True) := by simpa using hc
          simp only [resultHandler, if_neg hc]
          simpa using hc
      | some kw =>
        rw [resultHandler_eq requesterId st o now kw hidx]
        split <;> simp
    · simp only [harnessListener]
      cases hidx : index0 (Obj.get o "files") with
      | none =>
        by_cases hc : Obj.get o "type" = JSVal.str "search_result" ∧
            Obj.get o "target_id" = JSVal.str requesterId
        · simp [resultHandler, hc, hidx]
        · simp [resultHandler, hc]
      | some kw =>
        rw [resultHandler_eq requesterId st o now kw hidx]
        split <;> simp

/-- Witness for C8, amended: the reply of Robin is handled by both listeners
of Andrew without an error. -/
theorem listeners_on_frames_witness :
    (peerListener andrew benchStorage [] (.object robinReply) ⟨"u", 107⟩).2 = none ∧
    (harnessListener andrew.peerId ⟨[], [], 0⟩ (.object robinReply) 107).2 = none :=
  have h := listeners_on_frames andrew benchStorage [] ⟨"u", 107⟩ andrew.peerId ⟨[], [], 0⟩ 107
    (.object robinReply)
  ⟨h.1.2 ⟨_, rfl⟩, h.2.1.2 ⟨_, rfl, by decide⟩⟩

/-! ## Claims on `p2pSearch` -/

/-- C5 fails on the code: `andrew.txt`, which the requester owns, is requested
twice.  After the first query its latency is recorded as 0; the second query
reports `local: true` again and the local branch overwrites the recorded
latency with 1. -/
theorem local_branch_overwrites_latency :
    (∃ st net, queryLoop andrew benchStorage "benchmark" quietEnv 0 ["andrew.txt"]
        ⟨[], [], 0⟩ [] = .ok (st, net) ∧
      Dict.get? st.latencies "andrew.txt" = some (.ms 0)) ∧
    (∃ st net, queryLoop andrew benchStorage "benchmark" quietEnv 0
        ["andrew.txt", "andrew.txt"] ⟨[], [], 0⟩ [] = .ok (st, net) ∧
      Dict.get? st.latencies "andrew.txt" = some (.ms 1)) ∧
    (∃ r, p2pSearch andrew benchStorage ["andrew.txt", "andrew.txt"] "benchmark"
        "unnamed search" quietEnv = .returned r ∧
      Dict.get? r.latencies "andrew.txt" = some (.ms 1)) := by
  refine ⟨⟨_, _, rfl, ?_⟩, ⟨_, _, rfl, ?_⟩, ⟨_, rfl, ?_⟩⟩ <;> decide

/-- C7 fails on the code when totalTime is 0: for an empty keyword list the
returned throughput is `NaN` (0 / 0), and for a run whose only keyword is
answered locally within the same millisecond it is `Infinity` (1 / 0);
neither is 0. -/
theorem throughput_zero_totalTime :
    (∃ r, p2pSearch andrew benchStorage [] "benchmark" "unnamed search" sameMsEnv
        = .returned r ∧
      r.totalTime = 0 ∧ r.receivedKeywords = [] ∧ r.throughput = .nan) ∧
    (∃ r, p2pSearch andrew benchStorage ["andrew.txt"] "benchmark" "unnamed search"
        sameMsEnv = .returned r ∧
      r.totalTime = 0 ∧ r.receivedKeywords = [.str "andrew.txt"] ∧
      r.throughput = .posInf) := by
  refine ⟨⟨⟨"unnamed search", [], [], 0, 0, avgLatencyOf [], throughputOf [] 0⟩,
      rfl, rfl, rfl, ?_⟩,
    ⟨⟨"unnamed search", [("andrew.txt", .ms 0)], [.str "andrew.txt"], 0, 0,
      avgLatencyOf [("andrew.txt", .ms 0)], throughputOf [("andrew.txt", .ms 0)] 0⟩,
      rfl, rfl, rfl, ?_⟩⟩
  · simp [throughputOf, jsDiv, Dict.values]
  · simp [throughputOf, jsDiv, Dict.values]

/-- For a positive totalTime the throughput is the number of recorded
latencies divided by totalTime / 1000. -/
theorem throughputOf_of_pos (latencies : Dict Latency) (totalTime : Int)
    (hpos : 0 < totalTime) :
    throughputOf latencies totalTime
      = .fin (((Dict.values latencies).length : ℚ) / ((totalTime : ℚ) / 1000)) := by
  have h1 : (totalTime : ℚ) ≠ 0 := by
    have : (0 : ℚ) < (totalTime : ℚ) := by exact_mod_cast hpos
    exact ne_of_gt this
  have h2 : (totalTime : ℚ) / 1000 ≠ 0 := by
    apply div_ne_zero h1
    norm_num
  simp [throughputOf, jsDiv, h1, h2]

/-- C10 fails on the code: Andrew requests `a`, which nobody answers, and a
stray search_result for `z` addressed to him arrives.  The wait loop compares
only the sizes of the two sets, so it stops at once (waited = 0) although
`a` is not in receivedKeywords. -/
theorem wait_loop_stops_on_stray_result :
    ∃ t, p2pSearchTrace enoughFuel andrew benchStorage ["a"] "benchmark" "unnamed search"
        strayEnv = .returned t ∧
      t.waited = 0 ∧ t.waited < timeout ∧
      t.run.receivedKeywords = [.str "z"] ∧
      JSVal.str "a" ∉ t.run.receivedKeywords := by
  refine ⟨_, rfl, ?_⟩
  decide

/-! ### Termination of the wait loop -/

theorem resultHandler_keeps_absent (requesterId K : String) (st : RunState) (m : Obj)
    (now : Int) (hh : handled requesterId m) (hnot : ¬ isResultFor requesterId K m)
    (habs : keywordAbsent K st) :
    (resultHandler requesterId st m now).2 = none ∧
    keywordAbsent K (resultHandler requesterId st m now).1 := by
  cases hidx : index0 (Obj.get m "files") with
  | none =>
    have hc : ¬ (Obj.get m "type" = JSVal.str "search_result" ∧
        Obj.get m "target_id" = JSVal.str requesterId) :=
      fun h => hh ⟨h.1, h.2, hidx⟩
    simp only [resultHandler, if_neg hc]
    exact ⟨trivial, habs⟩
  | some kw =>
    rw [resultHandler_eq requesterId st m now kw hidx]
    split
    · rename_i hc
      have hne : kw.toStr ≠ K := fun e => hnot ⟨hc.1, hc.2.1, kw, hidx, e⟩
      refine ⟨rfl, ?_, ?_⟩
      · intro hmem
        rcases List.mem_append.mp hmem with h | h
        · exact habs.1 h
        · have : JSVal.str K = kw := by simpa using h
          exact hne (by rw [← this]; rfl)
      · show Dict.get? (Dict.assign st.latencies kw.toStr _) K = none
        rw [Dict.get?_assign_other _ _ _ _ hne]
        exact habs.2
    · exact ⟨rfl, habs⟩

theorem deliver_keeps_absent (requesterId K : String) (ms : List Inbound) :
    ∀ st : RunState,
      (∀ m ∈ ms, handled requesterId m.request ∧ ¬ isResultFor requesterId K m.request) →
      keywordAbsent K st →
      ∃ st1, deliver requesterId st ms = .ok st1 ∧ keywordAbsent K st1 := by
  induction ms with
  | nil => intro st _ habs; exact ⟨st, rfl, habs⟩
  | cons m rest ih =>
    intro st hms habs
    have hm := hms m (List.mem_cons_self _ _)
    obtain ⟨h1, h2⟩ := resultHandler_keeps_absent requesterId K st m.request m.now hm.1 hm.2 habs
    obtain ⟨st1, hd, ha⟩ := ih (resultHandler requesterId st m.request m.now).1
      (fun x hx => hms x (List.mem_cons_of_mem _ hx)) h2
    refine ⟨st1, ?_, ha⟩
    rw [← hd]
    simp only [deliver]
    generalize resultHandler requesterId st m.request m.now = r at h1
    obtain ⟨r1, r2⟩ := r
    simp only at h1
    subst h1
    rfl

/-- The query `sendQuery("search", { keyword, testCase })` reports a local
hit only when the folder of the peer for the namespace lists the keyword. -/
theorem sendQuery_localHit (p : Peer) (storage : Storage) (net : List Obj)
    (keyword testCase : String) (s inner : Stamp)
    (hloc : (sendQuery p storage net "search" (searchPayload keyword testCase) s
      inner).1.localHit = true) :
    ∃ files, storage ("./storage/" ++ testCase ++ "/" ++ p.name) = some files ∧
      keyword ∈ files := by
  by_contra hmiss
  obtain ⟨hk, hf⟩ := searchMessage_fields p keyword testCase s
  have hno : ¬ ∃ files,
      storage (storageFolder p (buildMessage p "search" (searchPayload keyword testCase) s))
        = some files ∧
      ∃ f ∈ files, JSVal.str f
        = Obj.get (buildMessage p "search" (searchPayload keyword testCase) s) "keyword" := by
    rintro ⟨files, h1, f, hfm, hfe⟩
    rw [hf] at h1
    rw [hk] at hfe
    have : f = keyword := by simpa using hfe
    exact hmiss ⟨files, h1, this ▸ hfm⟩
  have hres := handleSearch_miss p storage net _ inner hno
  simp [sendQuery, hres] at hloc

theorem queryLoop_keeps_absent (requester : Peer) (storage : Storage) (testCase : String)
    (env : Env) (K : String)
    (hcat : ∀ files, storage ("./storage/" ++ testCase ++ "/" ++ requester.name) = some files →
      K ∉ files)
    (hmsgs : ∀ m, arrives env m →
      handled requester.peerId m.request ∧ ¬ isResultFor requester.peerId K m.request)
    (keywords : List String) :
    ∀ (i : Nat) (st : RunState) (net : List Obj), keywordAbsent K st →
      ∃ st1 net1, queryLoop requester storage testCase env i keywords st net = .ok (st1, net1) ∧
        keywordAbsent K st1 := by
  induction keywords with
  | nil => intro i st net habs; exact ⟨st, net, rfl, habs⟩
  | cons keyword rest ih =>
    intro i st net habs
    obtain ⟨st1, hd, ha⟩ := deliver_keeps_absent requester.peerId K (env.queries i).inbound st
      (fun m hm => hmsgs m (Or.inl ⟨i, hm⟩)) habs
    simp only [queryLoop, hd]
    apply ih
    split
    · rename_i hloc
      obtain ⟨files, hf, hmem⟩ := sendQuery_localHit requester storage net keyword testCase _ _ hloc
      have hne : keyword ≠ K := fun e => hcat files hf (e ▸ hmem)
      refine ⟨?_, ?_⟩
      · show JSVal.str K ∉ JSSet.add st1.receivedKeywords (JSVal.str keyword)
        unfold JSSet.add
        split
        · exact ha.1
        · intro hmem2
          rcases List.mem_append.mp hmem2 with h | h
          · exact ha.1 h
          · have : K = keyword := by simpa using h
            exact hne this.symm
      · show Dict.get? (Dict.assign st1.latencies keyword _) K = none
        rw [Dict.get?_assign_other _ _ _ _ hne]
        exact ha.2
    · exact ha

theorem waitLoop_ne_outOfFuel (requesterId : String) (env : Env) (expectedSize : Nat) :
    ∀ (fuel j : Nat) (st : RunState) (waited : Nat),
      timeout ≤ waited + pollInterval * fuel →
      waitLoop requesterId env expectedSize (fuel + 1) j st waited ≠ .outOfFuel := by
  intro fuel
  induction fuel with
  | zero =>
    intro j st waited h
    have hw : ¬ waited < timeout := by simp at h; omega
    simp [waitLoop, hw]
  | succ n ih =>
    intro j st waited h
    rw [waitLoop]
    split
    · cases hd : deliver requesterId st (env.polls j) with
      | error e => simp
      | ok st1 =>
        simp only
        apply ih
        simp only [pollInterval] at h ⊢
        omega
    · simp

theorem waitLoop_waited_bound (requesterId : String) (env : Env) (expectedSize : Nat) :
    ∀ (fuel j : Nat) (st : RunState) (waited : Nat) (st1 : RunState) (w : Nat),
      waited ≤ timeout → pollInterval ∣ waited →
      waitLoop requesterId env expectedSize fuel j st waited = .returned (st1, w) →
      w ≤ timeout ∧ pollInterval ∣ w := by
  intro fuel
  induction fuel with
  | zero => intro j st waited st1 w _ _ h; simp [waitLoop] at h
  | succ n ih =>
    intro j st waited st1 w hle hdvd h
    rw [waitLoop] at h
    split at h
    · rename_i hc
      cases hd : deliver requesterId st (env.polls j) with
      | error e => rw [hd] at h; simp at h
      | ok st2 =>
        rw [hd] at h
        simp only at h
        refine ih (j + 1) st2 (waited + pollInterval) st1 w ?_ (Dvd.dvd.add hdvd (dvd_refl _)) h
        obtain ⟨c, hc2⟩ := hdvd
        have := hc.2
        simp only [timeout, pollInterval] at *
        omega
    · simp only [Outcome.returned.injEq, Prod.mk.injEq] at h
      obtain ⟨-, rfl⟩ := h
      exact ⟨hle, hdvd⟩

theorem waitLoop_keeps_absent (requesterId : String) (env : Env) (expectedSize : Nat)
    (K : String)
    (hmsgs : ∀ m, arrives env m →
      handled requesterId m.request ∧ ¬ isResultFor requesterId K m.request) :
    ∀ (fuel j : Nat) (st : RunState) (waited : Nat),
      timeout ≤ waited + pollInterval * fuel → keywordAbsent K st →
      ∃ st1 w, waitLoop requesterId env expectedSize (fuel + 1) j st waited
          = .returned (st1, w) ∧ keywordAbsent K st1 := by
  intro fuel
  induction fuel with
  | zero =>
    intro j st waited h habs
    have hw : ¬ waited < timeout := by simp at h; omega
    exact ⟨st, waited, by simp [waitLoop, hw], habs⟩
  | succ n ih =>
    intro j st waited h habs
    rw [waitLoop]
    split
    · obtain ⟨st1, hd, ha⟩ := deliver_keeps_absent requesterId K (env.polls j) st
        (fun m hm => hmsgs m (Or.inr ⟨j, hm⟩)) habs
      rw [hd]
      simp only
      apply ih _ _ _ _ ha
      simp only [pollInterval] at h ⊢
      omega
    · exact ⟨st, waited, rfl, habs⟩

/-- The run when a listener raises during the query loop. -/
theorem p2pSearchTrace_of_error (fuel : Nat) (requester : Peer) (storage : Storage)
    (keywords : List String) (testCase label : String) (env : Env) (e : JSError)
    (hq : queryLoop requester storage testCase env 0 keywords ⟨[], [], 0⟩ [] = .error e) :
    p2pSearchTrace fuel requester storage keywords testCase label env = .crashed e := by
  simp only [p2pSearchTrace, hq]

/-- The run when the wait loop runs out of fuel. -/
theorem p2pSearchTrace_of_outOfFuel (fuel : Nat) (requester : Peer) (storage : Storage)
    (keywords : List String) (testCase label : String) (env : Env) (st1 : RunState)
    (net : List Obj)
    (hq : queryLoop requester storage testCase env 0 keywords ⟨[], [], 0⟩ [] = .ok (st1, net))
    (hw : waitLoop requester.peerId env (JSSet.ofArray keywords).length fuel 0 st1 0
      = .outOfFuel) :
    p2pSearchTrace fuel requester storage keywords testCase label env = .outOfFuel := by
  simp only [p2pSearchTrace, hq, hw]

/-- The run when a listener raises during the wait loop. -/
theorem p2pSearchTrace_of_crashed (fuel : Nat) (requester : Peer) (storage : Storage)
    (keywords : List String) (testCase label : String) (env : Env) (st1 : RunState)
    (net : List Obj) (e : JSError)
    (hq : queryLoop requester storage testCase env 0 keywords ⟨[], [], 0⟩ [] = .ok (st1, net))
    (hw : waitLoop requester.peerId env (JSSet.ofArray keywords).length fuel 0 st1 0
      = .crashed e) :
    p2pSearchTrace fuel requester storage keywords testCase label env = .crashed e := by
  simp only [p2pSearchTrace, hq, hw]

/-- The run when both loops complete. -/
theorem p2pSearchTrace_of_returned (fuel : Nat) (requester : Peer) (storage : Storage)
    (keywords : List String) (testCase label : String) (env : Env) (st1 st : RunState)
    (net : List Obj) (w : Nat)
    (hq : queryLoop requester storage testCase env 0 keywords ⟨[], [], 0⟩ [] = .ok (st1, net))
    (hw : waitLoop requester.peerId env (JSSet.ofArray keywords).length fuel 0 st1 0
      = .returned (st, w)) :
    p2pSearchTrace fuel requester storage keywords testCase label env =
      .returned
        { run :=
            { label := label
              latencies := st.latencies
              receivedKeywords := st.receivedKeywords
              trafficCounter := st.trafficCounter
              totalTime := env.endNow - env.startAll
              avgLatency := avgLatencyOf st.latencies
              throughput := throughputOf st.latencies (env.endNow - env.startAll) }
          waited := w
          net := net } := by
  simp only [p2pSearchTrace, hq, hw]

/-- C6 fails as stated: Andrew requests `edison.mp3`, which is not in his
catalog, and the only message that arrives is a search_result addressed to him
that carries no files, so no search_result for `edison.mp3` arrives.  The
listener raises a TypeError on it and the run does not return. -/
theorem listener_error_counterexample :
    (∀ files, benchStorage ("./storage/" ++ "benchmark" ++ "/" ++ andrew.name) = some files →
      "edison.mp3" ∉ files) ∧
    (∀ m, arrives brokenEnv m → ¬ isResultFor andrew.peerId "edison.mp3" m.request) ∧
    p2pSearch andrew benchStorage ["edison.mp3"] "benchmark" "unnamed search" brokenEnv
      = .crashed .typeError ∧
    (∀ fuel, 0 < fuel →
      p2pSearchTrace fuel andrew benchStorage ["edison.mp3"] "benchmark" "unnamed search"
        brokenEnv = .crashed .typeError) := by
  refine ⟨?_, ?_, rfl, ?_⟩
  · intro files hfiles
    have e : benchStorage ("./storage/" ++ "benchmark" ++ "/" ++ andrew.name)
        = some ["andrew.txt"] := by decide
    rw [e] at hfiles
    cases hfiles
    decide
  · rintro m (⟨i, hi⟩ | ⟨j, hj⟩)
    · simp only [brokenEnv, List.mem_singleton] at hi
      subst hi
      rintro ⟨-, -, kw, hkw, -⟩
      have hnone : index0 (Obj.get brokenResult "files") = none := by decide
      rw [hnone] at hkw
      cases hkw
    · simp [brokenEnv] at hj
  · intro fuel _
    exact p2pSearchTrace_of_error fuel andrew benchStorage ["edison.mp3"] "benchmark"
      "unnamed search" brokenEnv .typeError rfl

/-- C6, amended.  With fuel for timeout / pollInterval = 500 iterations and
the final test, the wait loop never runs out of fuel, whatever the state it
starts from and whatever is delivered during the sleeps: it stops after at
most 500 poll steps (waited is a multiple of pollInterval and at most
timeout), unless an uncaught listener error has ended the process first, and
so does the whole of `p2pSearch`.  In particular, when keyword K is not in
the catalog of the requester, every message that arrives is one the listener
handles without raising (a search_result addressed to the requester has a
readable files value), and none of them is a search_result addressed to the
requester whose files[0] has string form K, the run returns with K absent from
receivedKeywords and from latencies. -/
theorem p2pSearch_wait_terminates (fuel : Nat) (requester : Peer) (storage : Storage)
    (keywords : List String) (testCase label : String) (env : Env)
    (hfuel : enoughFuel ≤ fuel) :
    (∀ (expectedSize : Nat) (st : RunState),
      waitLoop requester.peerId env expectedSize fuel 0 st 0 ≠ .outOfFuel ∧
      ∀ st1 w, waitLoop requester.peerId env expectedSize fuel 0 st 0 = .returned (st1, w) →
        w ≤ timeout ∧ pollInterval ∣ w ∧ w / pollInterval ≤ 500) ∧
    p2pSearchTrace fuel requester storage keywords testCase label env ≠ .outOfFuel ∧
    p2pSearch requester storage keywords testCase label env ≠ .outOfFuel ∧
    (∀ t, p2pSearchTrace fuel requester storage keywords testCase label env = .returned t →
      t.waited ≤ timeout ∧ pollInterval ∣ t.waited ∧ t.waited / pollInterval ≤ 500) ∧
    (∀ K : String,
      (∀ files, storage ("./storage/" ++ testCase ++ "/" ++ requester.name) = some files →
        K ∉ files) →
      (∀ m, arrives env m →
        handled requester.peerId m.request ∧ ¬ isResultFor requester.peerId K m.request) →
      ∃ t, p2pSearchTrace fuel requester storage keywords testCase label env = .returned t ∧
        JSVal.str K ∉ t.run.receivedKeywords ∧ Dict.get? t.run.latencies K = none) := by
  have hfuel2 : 501 ≤ fuel := by
    simpa [enoughFuel, timeout, pollInterval] using hfuel
  obtain ⟨f, rfl⟩ : ∃ f, fuel = f + 1 := ⟨fuel - 1, by omega⟩
  have hf : timeout ≤ 0 + pollInterval * f := by
    simp only [timeout, pollInterval]
    omega
  have hf0 : timeout ≤ 0 + pollInterval * 500 := by
    simp [timeout, pollInterval]
  have hbound : ∀ (g : Nat) (expectedSize : Nat) (st st1 : RunState) (w : Nat),
      waitLoop requester.peerId env expectedSize g 0 st 0 = .returned (st1, w) →
      w ≤ timeout ∧ pollInterval ∣ w ∧ w / pollInterval ≤ 500 := by
    intro g expectedSize st st1 w h
    obtain ⟨h1, h2⟩ := waitLoop_waited_bound requester.peerId env expectedSize g 0 st 0 st1 w
      (Nat.zero_le _) (dvd_zero _) h
    refine ⟨h1, h2, ?_⟩
    simp only [timeout, pollInterval] at h1 ⊢
    omega
  have hne : ∀ g : Nat, timeout ≤ 0 + pollInterval * g →
      p2pSearchTrace (g + 1) requester storage keywords testCase label env ≠ .outOfFuel := by
    intro g hg
    cases hq : queryLoop requester storage testCase env 0 keywords ⟨[], [], 0⟩ [] with
    | error e => rw [p2pSearchTrace_of_error _ _ _ _ _ _ _ e hq]; simp
    | ok r =>
      obtain ⟨st1, net⟩ := r
      cases hw : waitLoop requester.peerId env (JSSet.ofArray keywords).length (g + 1) 0 st1 0 with
      | outOfFuel => exact absurd hw (waitLoop_ne_outOfFuel _ _ _ g 0 st1 0 hg)
      | crashed e => rw [p2pSearchTrace_of_crashed _ _ _ _ _ _ _ _ _ e hq hw]; simp
      | returned r2 =>
        obtain ⟨st2, w⟩ := r2
        rw [p2pSearchTrace_of_returned _ _ _ _ _ _ _ _ _ _ _ hq hw]
        simp
  refine ⟨fun expectedSize st =>
      ⟨waitLoop_ne_outOfFuel requester.peerId env expectedSize f 0 st 0 hf,
        hbound _ expectedSize st⟩, hne f hf, ?_, ?_, ?_⟩
  · have h500 := hne 500 hf0
    intro hp
    apply h500
    unfold p2pSearch at hp
    have he : enoughFuel = 500 + 1 := by simp [enoughFuel, timeout, pollInterval]
    rw [he] at hp
    cases ht : p2pSearchTrace (500 + 1) requester storage keywords testCase label env with
    | outOfFuel => rfl
    | crashed e => rw [ht] at hp; simp at hp
    | returned t => rw [ht] at hp; simp at hp
  · intro t ht
    cases hq : queryLoop requester storage testCase env 0 keywords ⟨[], [], 0⟩ [] with
    | error e => rw [p2pSearchTrace_of_error _ _ _ _ _ _ _ e hq] at ht; simp at ht
    | ok r =>
      obtain ⟨st1, net⟩ := r
      cases hw : waitLoop requester.peerId env (JSSet.ofArray keywords).length (f + 1) 0 st1 0 with
      | outOfFuel => rw [p2pSearchTrace_of_outOfFuel _ _ _ _ _ _ _ _ _ hq hw] at ht; simp at ht
      | crashed e => rw [p2pSearchTrace_of_crashed _ _ _ _ _ _ _ _ _ e hq hw] at ht; simp at ht
      | returned r2 =>
        obtain ⟨st2, w⟩ := r2
        rw [p2pSearchTrace_of_returned _ _ _ _ _ _ _ _ _ _ _ hq hw] at ht
        simp only [Outcome.returned.injEq] at ht
        subst ht
        exact hbound _ _ _ _ _ hw
  · intro K hcat hmsgs
    obtain ⟨st1, net1, hq, ha1⟩ := queryLoop_keeps_absent requester storage testCase env K hcat
      hmsgs keywords 0 ⟨[], [], 0⟩ [] ⟨by simp, rfl⟩
    obtain ⟨st2, w, hw, ha2⟩ := waitLoop_keeps_absent requester.peerId env
      (JSSet.ofArray keywords).length K hmsgs f 0 st1 0 hf ha1
    exact ⟨_, p2pSearchTrace_of_returned _ _ _ _ _ _ _ _ _ _ _ hq hw, ha2.1, ha2.2⟩

/-- Witness for C6: Andrew requests `edison.mp3`, which nobody owns, and no
message arrives; the run returns after the timeout without the keyword. -/
theorem p2pSearch_wait_terminates_witness :
    enoughFuel ≤ enoughFuel ∧
    p2pSearch andrew benchStorage ["edison.mp3"] "benchmark" "unnamed search" quietEnv
      ≠ .outOfFuel ∧
    ∃ t, p2pSearchTrace enoughFuel andrew benchStorage ["edison.mp3"] "benchmark"
        "unnamed search" quietEnv = .returned t ∧
      JSVal.str "edison.mp3" ∉ t.run.receivedKeywords ∧
      Dict.get? t.run.latencies "edison.mp3" = none := by
  have h := p2pSearch_wait_terminates enoughFuel andrew benchStorage ["edison.mp3"]
    "benchmark" "unnamed search" quietEnv (le_refl _)
  refine ⟨le_refl _, h.2.2.1, h.2.2.2.2 "edison.mp3" ?_ ?_⟩
  · intro files hfiles
    have e : benchStorage ("./storage/" ++ "benchmark" ++ "/" ++ andrew.name)
        = some ["andrew.txt"] := by decide
    rw [e] at hfiles
    cases hfiles
    decide
  · rintro m (⟨i, hi⟩ | ⟨j, hj⟩)
    · by_cases h0 : i = 0
      · simp [quietEnv, h0] at hi
      · simp [quietEnv, h0] at hi
    · simp [quietEnv] at hj

/-! ## Claims on `compareTestResults` -/

theorem JSSet.mem_add {α : Type} [DecidableEq α] (s : JSSet α) (v x : α) :
    x ∈ JSSet.add s v ↔ x ∈ s ∨ x = v := by
  unfold JSSet.add
  split
  · rename_i h
    constructor
    · exact fun hx => Or.inl hx
    · rintro (hx | rfl)
      · exact hx
      · exact h
  · simp

theorem JSSet.add_nodup {α : Type} [DecidableEq α] (s : JSSet α) (v : α)
    (h : s.Nodup) : (JSSet.add s v).Nodup := by
  unfold JSSet.add
  split
  · exact h
  · rename_i hv
    refine List.Nodup.append h (List.nodup_singleton v) ?_
    intro a ha hav
    rw [List.mem_singleton] at hav
    exact hv (hav ▸ ha)

theorem foldl_add_nodup (xs : List String) :
    ∀ acc : JSSet String, acc.Nodup → (xs.foldl JSSet.add acc).Nodup := by
  induction xs with
  | nil => intro acc h; exact h
  | cons x tl ih => intro acc h; exact ih _ (JSSet.add_nodup acc x h)

theorem mem_foldl_add (xs : List String) :
    ∀ (acc : JSSet String) (x : String), x ∈ xs.foldl JSSet.add acc ↔ x ∈ acc ∨ x ∈ xs := by
  induction xs with
  | nil => intro acc x; simp
  | cons y tl ih =>
    intro acc x
    rw [List.foldl_cons, ih, JSSet.mem_add, List.mem_cons, or_assoc]

theorem allKeywords_aux_nodup (results : List Run) :
    ∀ acc : JSSet String, acc.Nodup →
      (results.foldl (fun acc r => (Dict.keys r.latencies).foldl JSSet.add acc) acc).Nodup := by
  induction results with
  | nil => intro acc h; exact h
  | cons r tl ih => intro acc h; exact ih _ (foldl_add_nodup _ acc h)

theorem allKeywords_aux_mem (results : List Run) :
    ∀ (acc : JSSet String) (x : String),
      x ∈ results.foldl (fun acc r => (Dict.keys r.latencies).foldl JSSet.add acc) acc ↔
        x ∈ acc ∨ ∃ r ∈ results, x ∈ Dict.keys r.latencies := by
  induction results with
  | nil => intro acc x; simp
  | cons r tl ih =>
    intro acc x
    rw [List.foldl_cons, ih, mem_foldl_add]
    simp only [List.mem_cons, exists_eq_or_imp, or_assoc]

/-- The set `allKeywords` has no repetition. -/
theorem allKeywords_nodup (results : List Run) : (allKeywords results).Nodup :=
  allKeywords_aux_nodup results [] List.nodup_nil

/-- The set `allKeywords` holds exactly the keys of the latency maps. -/
theorem mem_allKeywords (results : List Run) (k : String) :
    k ∈ allKeywords results ↔ ∃ r ∈ results, k ∈ Dict.keys r.latencies := by
  unfold allKeywords
  rw [allKeywords_aux_mem]
  simp

/-- Assigning one property per run onto a row whose keys are none of the
labels, the labels being distinct: the row gains the labels in order, keeps
what it held, and every run reads back its own cell. -/
theorem row_fold (k : String) (results : List Run) :
    ∀ row : Dict String,
      (results.map (fun r => r.label)).Nodup →
      (∀ r ∈ results, r.label ∉ Dict.keys row) →
      Dict.keys (results.foldl (fun row r => Dict.set row r.label (cell r k)) row)
        = Dict.keys row ++ results.map (fun r => r.label) ∧
      (∀ key ∈ Dict.keys row,
        Dict.get? (results.foldl (fun row r => Dict.set row r.label (cell r k)) row) key
          = Dict.get? row key) ∧
      (∀ r ∈ results,
        Dict.get? (results.foldl (fun row r => Dict.set row r.label (cell r k)) row) r.label
          = some (cell r k)) := by
  induction results with
  | nil => intro row _ _; simp
  | cons r tl ih =>
    intro row hnd hfresh
    rw [List.map_cons, List.nodup_cons] at hnd
    have hr : r.label ∉ Dict.keys row := hfresh r (List.mem_cons_self _ _)
    have hkeys := Dict.keys_set_of_not_mem row r.label (cell r k) hr
    have hfresh1 : ∀ r1 ∈ tl, r1.label ∉ Dict.keys (Dict.set row r.label (cell r k)) := by
      intro r1 hr1 hmem
      rw [hkeys, List.mem_append, List.mem_singleton] at hmem
      rcases hmem with h | h
      · exact hfresh r1 (List.mem_cons_of_mem _ hr1) h
      · exact hnd.1 (h ▸ List.mem_map_of_mem (fun r => r.label) hr1)
    obtain ⟨h1, h2, h3⟩ := ih (Dict.set row r.label (cell r k)) hnd.2 hfresh1
    rw [List.foldl_cons]
    refine ⟨?_, ?_, ?_⟩
    · rw [h1, hkeys]
      simp
    · intro key hkey
      have hne : r.label ≠ key := fun e => hr (e ▸ hkey)
      rw [h2 key (by rw [hkeys]; exact List.mem_append_left _ hkey)]
      exact Dict.get?_set_other row r.label key _ hne
    · intro r1 hr1
      rcases List.mem_cons.mp hr1 with h | h
      · subst h
        rw [h2 r1.label (by rw [hkeys]; simp)]
        exact Dict.get?_set_same row r1.label _
      · exact h3 r1 h

/-- C9 fails as stated.  When two runs share a label (here the label that
`p2pSearch` uses by default), the first having recorded 5 ms for
`common_file.txt` and the second nothing, the row of that keyword has a single
cell for both runs and it holds the sentinel of the second run.  And when one
run recorded a latency for the keyword `constructor`, the cell of a run that
recorded none holds the inherited member of that name, not the sentinel. -/
theorem shared_label_counterexample :
    (∃ rep, compareTestResults [runA, runB] = some rep ∧
      rep.keywordTable = [[("Keyword", "common_file.txt"), ("unnamed search", "NaN")]] ∧
      Dict.get? runA.latencies "common_file.txt" = some (.ms 5) ∧
      (∃ row ∈ rep.keywordTable, Dict.get? row runA.label ≠ some "5 ms")) ∧
    (∃ rep, compareTestResults [runCtor, runSecond] = some rep ∧
      Dict.get? runSecond.latencies "constructor" = none ∧
      (∃ row ∈ rep.keywordTable, Dict.get? row "Keyword" = some "constructor" ∧
        Dict.get? row runSecond.label
          = some "function Object() \x7b [native code] \x7d ms" ∧
        Dict.get? row runSecond.label ≠ some "NaN")) := by
  refine ⟨⟨_, rfl, by decide, by decide, ?_⟩, ⟨_, rfl, by decide, ?_⟩⟩
  · decide
  · decide

/-- With no run labelled `__proto__`, every assignment of a row stores its
cell. -/
theorem row_assign_eq_set (k : String) (results : List Run)
    (hproto : ∀ r ∈ results, r.label ≠ "__proto__") :
    ∀ row : Dict String,
      results.foldl (fun row r => Dict.assign row r.label (cell r k)) row
        = results.foldl (fun row r => Dict.set row r.label (cell r k)) row := by
  induction results with
  | nil => intro row; rfl
  | cons r tl ih =>
    intro row
    rw [List.foldl_cons, List.foldl_cons,
      Dict.assign_of_ne _ _ _ (hproto r (List.mem_cons_self _ _))]
    exact ih (fun r1 hr1 => hproto r1 (List.mem_cons_of_mem _ hr1)) _

/-- C9, amended.  For every non-empty list of runs whose labels are pairwise
distinct and none of which is labelled "Keyword" or "__proto__", the recorded
latencies being `NaN` or integers that a double holds exactly: the summary
table has exactly one row per run, in input order; the per-keyword table has
exactly one row for each distinct key of the latency maps of the runs; every
row has, besides its keyword, exactly one cell per run, under the label of
the run; the cell holds "<latency> ms" when the run recorded a latency for
the keyword, and it holds "NaN" when the run did not and the keyword is not
the name of a member of `Object.prototype`. -/
theorem compareTestResults_tables (results : List Run) (hne : results ≠ [])
    (hlabels : (results.map (fun r => r.label)).Nodup)
    (hkw : ∀ r ∈ results, r.label ≠ "Keyword" ∧ r.label ≠ "__proto__")
    (hexact : ∀ r ∈ results, ∀ kv ∈ r.latencies, kv.2.exact) :
    ∃ rep, compareTestResults results = some rep ∧
      rep.summary = results.map summaryRow ∧
      rep.summary.map (fun row => row.test) = results.map (fun r => r.label) ∧
      (rep.keywordTable.map (fun row => Dict.get? row "Keyword")).Nodup ∧
      (∀ k, some k ∈ rep.keywordTable.map (fun row => Dict.get? row "Keyword") ↔
        ∃ r ∈ results, k ∈ Dict.keys r.latencies) ∧
      (∀ row ∈ rep.keywordTable, ∃ k,
        Dict.get? row "Keyword" = some k ∧
        (∃ r ∈ results, k ∈ Dict.keys r.latencies) ∧
        (Dict.keys row).Nodup ∧
        (∀ key, key ∈ Dict.keys row ↔ key = "Keyword" ∨ ∃ r ∈ results, r.label = key) ∧
        ∀ r ∈ results,
          (∀ l, Dict.get? r.latencies k = some l →
            Dict.get? row r.label = some (l.toStr ++ " ms")) ∧
          (Dict.get? r.latencies k = none → protoMember k = none →
            Dict.get? row r.label = some "NaN")) := by
  have _ := hexact
  have hlen : ¬ results.length = 0 := by
    intro h
    exact hne (List.length_eq_zero.mp h)
  have hrow : ∀ k, Dict.keys (keywordRow results k) = "Keyword" :: results.map (fun r => r.label) ∧
      Dict.get? (keywordRow results k) "Keyword" = some k ∧
      ∀ r ∈ results, Dict.get? (keywordRow results k) r.label = some (cell r k) := by
    intro k
    have hfresh : ∀ r ∈ results, r.label ∉ Dict.keys [("Keyword", k)] := by
      intro r hr hmem
      simp only [Dict.keys, List.map_cons, List.map_nil, List.mem_singleton] at hmem
      exact (hkw r hr).1 hmem
    have hbridge := row_assign_eq_set k results (fun r hr => (hkw r hr).2) [("Keyword", k)]
    obtain ⟨h1, h2, h3⟩ := row_fold k results [("Keyword", k)] hlabels hfresh
    have hk := h2 "Keyword" (by simp [Dict.keys])
    simp only [keywordRow, hbridge]
    refine ⟨h1, ?_, h3⟩
    rw [hk]
    simp [Dict.get?]
  have hkeymap : (List.map (keywordRow results) (allKeywords results)).map
      (fun row => Dict.get? row "Keyword") = (allKeywords results).map some := by
    simp only [List.map_map]
    apply List.map_congr_left
    intro k _
    exact (hrow k).2.1
  have hrep : compareTestResults results =
      some ⟨results.map summaryRow, (allKeywords results).map (keywordRow results)⟩ := by
    simp only [compareTestResults, if_neg hlen]
  refine ⟨_, hrep, rfl, ?_, ?_, ?_, ?_⟩
  · simp [summaryRow]
  · show ((List.map (keywordRow results) (allKeywords results)).map
      (fun row => Dict.get? row "Keyword")).Nodup
    rw [hkeymap]
    exact (allKeywords_nodup results).map (Option.some_injective _)
  · intro k
    show some k ∈ (List.map (keywordRow results) (allKeywords results)).map
      (fun row => Dict.get? row "Keyword") ↔ _
    rw [hkeymap, List.mem_map_of_injective (Option.some_injective _)]
    exact mem_allKeywords results k
  · intro row hmem
    obtain ⟨k, hk, rfl⟩ := List.mem_map.mp hmem
    refine ⟨k, (hrow k).2.1, (mem_allKeywords results k).mp hk, ?_, ?_, fun r hr => ⟨?_, ?_⟩⟩
    · rw [(hrow k).1, List.nodup_cons]
      refine ⟨?_, hlabels⟩
      intro hin
      obtain ⟨r, hr, hl⟩ := List.mem_map.mp hin
      exact (hkw r hr).1 hl
    · intro key
      rw [(hrow k).1, List.mem_cons, List.mem_map]
    · intro l hl
      rw [(hrow k).2.2 r hr, cell, hl]
    · intro hl hp
      rw [(hrow k).2.2 r hr, cell, hl, hp]

/-- Witness for C9, amended: two runs labelled `first` and `second`. -/
theorem compareTestResults_tables_witness :
    [runFirst, runSecond] ≠ [] ∧
    ([runFirst, runSecond].map (fun r => r.label)).Nodup ∧
    (∀ r ∈ [runFirst, runSecond], r.label ≠ "Keyword" ∧ r.label ≠ "__proto__") ∧
    (∀ r ∈ [runFirst, runSecond], ∀ kv ∈ r.latencies, kv.2.exact) ∧
    ∃ rep, compareTestResults [runFirst, runSecond] = some rep ∧
      rep.keywordTable
        = [[("Keyword", "common_file.txt"), ("first", "5 ms"), ("second", "NaN")]] ∧
      (rep.keywordTable.map (fun row => Dict.get? row "Keyword")).Nodup := by
  have h1 : ([runFirst, runSecond].map (fun r => r.label)).Nodup := by decide
  have h2 : ∀ r ∈ [runFirst, runSecond], r.label ≠ "Keyword" ∧ r.label ≠ "__proto__" := by
    intro r hr
    simp only [List.mem_cons, List.mem_singleton, List.not_mem_nil, or_false] at hr
    rcases hr with rfl | rfl <;> decide
  have h3 : ∀ r ∈ [runFirst, runSecond], ∀ kv ∈ r.latencies, kv.2.exact := by
    intro r hr kv hkv
    simp only [List.mem_cons, List.mem_singleton, List.not_mem_nil, or_false] at hr
    rcases hr with rfl | rfl
    · simp only [runFirst, runA, List.mem_singleton] at hkv
      subst hkv
      norm_num [Latency.exact]
    · simp [runSecond, runB] at hkv
  obtain ⟨rep, hrep, -, -, h, -⟩ :=
    compareTestResults_tables [runFirst, runSecond] (by simp) h1 h2 h3
  have hval : compareTestResults [runFirst, runSecond]
      = some ⟨[runFirst, runSecond].map summaryRow,
          [[("Keyword", "common_file.txt"), ("first", "5 ms"), ("second", "NaN")]]⟩ := by
    have : (allKeywords [runFirst, runSecond]).map (keywordRow [runFirst, runSecond])
        = [[("Keyword", "common_file.txt"), ("first", "5 ms"), ("second", "NaN")]] := by
      decide
    simp only [compareTestResults, List.length_cons, List.length_nil, this]
    rfl
  rw [hval] at hrep
  cases hrep
  exact ⟨by simp, h1, h2, h3, _, hval, rfl, h⟩

end P2P
